import Mathlib

/-! factomd: the FullServerFault message, the factoid block head, the entry event mapper

A shallow embedding of `common/messages/fullServerFault.go`,
`database/databaseOverlay/fblock.go` and
`events/eventservices/entryEventMapper.go`.

* Go byte slices are lists of bytes; an index or slice expression that is out
  of range is a run-time panic, made explicit as `Outcome.panic`.
* A method with `defer func() { recover() ... }()` turns a panic of its body
  into an ordinary error; a method without it lets the panic escape.
* A method with a pointer receiver that assigns to the receiver returns the
  receiver after the call next to its Go results.
* Interface-typed fields (`Timestamp`, `ServerID`, `Signature`) may be `nil`:
  they are `Option`s, and a method call on `none` is a nil dereference.
* A returned slice is an `Option`, `none` for Go's `nil`; an argument slice is a
  list, so a nil and an empty argument are not told apart.
* A slice expression `s[0:4]` is checked against `len(s)`. Go checks it against
  `cap(s)`, but every such expression of the code stands next to `s[4:]` in
  the same tuple assignment, which panics whenever `len(s) < 4`, before
  anything is assigned.
-/

namespace Factomd

/-! ## Bytes and machine integers -/

/-- Go `byte`. -/
abbrev Byte := Fin 256

/-- Go `[]byte`, as the list of its `len` elements. -/
abbrev Bytes := List Byte

/-- Go `uint32`. -/
abbrev Uint32 := Fin 4294967296

/-- The low eight bits of a number, as a byte. -/
def toByte (n : Nat) : Byte := ⟨n % 256, Nat.mod_lt n (by decide)⟩

/-- Big-endian encoding of `n` in exactly `w` bytes, most significant first;
bits of `n` above `8 * w` are dropped, as a conversion to the `w`-byte
unsigned type drops them. -/
def beBytes : Nat → Nat → Bytes
  | 0, _ => []
  | w + 1, n => toByte (n / 256 ^ w) :: beBytes w n

/-- The number a big-endian byte string denotes. -/
def beVal : Bytes → Nat
  | [] => 0
  | b :: bs => b.val * 256 ^ bs.length + beVal bs

/-- Writing a `uint32` with `binary.Write(&buf, binary.BigEndian, uint32(v))`:
four bytes. -/
def putUint32 (v : Uint32) : Bytes := beBytes 4 v.val

/-- Reading with `binary.BigEndian.Uint32(b)` for a four-byte `b`. -/
def BigEndian.Uint32 (b : Bytes) : Uint32 :=
  ⟨beVal b % 4294967296, Nat.mod_lt _ (by decide)⟩

/-! ## Panics, errors and results -/

/-- The run-time panics the code can raise. -/
inductive Panic where
  /-- An index expression `s[i]` with `i` not below `len(s)`. -/
  | indexOutOfRange
  /-- A slice expression `s[lo:hi]` with bounds out of range. -/
  | sliceBoundsOutOfRange
  /-- A method call on a nil interface value. -/
  | nilDereference
deriving DecidableEq

/-- The `error` values the code returns. -/
inductive Error where
  /-- Go: `fmt.Errorf("Invalid Message type")`. -/
  | invalidMessageType
  /-- Go: `fmt.Errorf("Error marshalling Invalid Server Fault: %v", r)`. -/
  | marshalRecovered (r : Panic)
  /-- Go: `fmt.Errorf("Error unmarshalling With Signatures Invalid Server Fault: %v", r)`. -/
  | unmarshalRecovered (r : Panic)
  /-- A primitive decoder was given fewer bytes than its fixed width. -/
  | notEnoughData
  /-- A signature that lacks its key or signature bytes cannot be marshaled. -/
  | signatureNotComplete
  /-- An error reported by a collaborator (node state, signer), by code. -/
  | collaborator (code : Nat)
deriving DecidableEq

deriving instance DecidableEq for Except

/-- The result of a call that may panic instead of returning. -/
inductive Outcome (α : Type) where
  | ret (a : α)
  | panic (r : Panic)
deriving DecidableEq

/-! ## Collaborators that are not in the message file -/

/-- Modelled from the spec: the `constants` and `primitives` packages are
missing from the sources. The spec gives a one-byte type tag and says the
timestamp and the signature (public key, then signature bytes) serialise to
fixed-width fields without naming the widths, so the tag and the three
widths are parameters of the wire format. -/
structure Wire where
  /-- Go: `constants.FED_SERVER_FAULT_MSG`. -/
  FED_SERVER_FAULT_MSG : Byte
  /-- Width in bytes of an encoded timestamp. -/
  TimestampLen : Nat
  /-- Width in bytes of a public key. -/
  PubKeyLen : Nat
  /-- Width in bytes of the signature proper. -/
  SigLen : Nat
deriving DecidableEq

/-- Modelled from the spec: `primitives.Timestamp` is missing from the
sources; the spec makes it a millisecond-resolution instant that serialises
to a fixed-width field. -/
structure Timestamp where
  millis : Nat
deriving DecidableEq

/-- Modelled from the spec: `new(primitives.Timestamp)`, the zero instant. -/
def Timestamp.new : Timestamp := ⟨0⟩

/-- Modelled from the spec: `Timestamp.GetTimeMilli`, the instant in
milliseconds. -/
def Timestamp.GetTimeMilli (t : Timestamp) : Nat := t.millis

/-- Modelled from the spec: `Timestamp.MarshalBinary` (missing from the
sources) writes the milliseconds big-endian in the fixed width of the wire
format. -/
def Timestamp.MarshalBinary (W : Wire) (t : Timestamp) : Except Error Bytes :=
  .ok (beBytes W.TimestampLen t.millis)

/-- Modelled from the spec: `Timestamp.UnmarshalBinaryData` (missing from the
sources) reads the fixed-width field off the front of the buffer and returns
the rest; a buffer shorter than the field is an error, and the receiver is
then left as it was. -/
def Timestamp.UnmarshalBinaryData (W : Wire) (data : Bytes) :
    Except Error (Timestamp × Bytes) :=
  if data.length < W.TimestampLen then .error .notEnoughData
  else .ok (⟨beVal (data.take W.TimestampLen)⟩, data.drop W.TimestampLen)

/-- Modelled from the spec: `primitives.Hash` is missing from the sources; the
spec makes it a fixed-size 32-byte digest. -/
structure Hash where
  bytes : Bytes
  size : bytes.length = 32
deriving DecidableEq

/-- Modelled from the spec: `primitives.NewZeroHash()`, thirty-two zero
bytes. -/
def NewZeroHash : Hash := ⟨List.replicate 32 0, by simp⟩

/-- Modelled from the spec: `Hash.MarshalBinary` (missing from the sources)
gives the 32 bytes of the hash. -/
def Hash.MarshalBinary (h : Hash) : Except Error Bytes := .ok h.bytes

/-- Modelled from the spec: `Hash.UnmarshalBinaryData` (missing from the
sources) takes the first 32 bytes as the hash and returns the rest; a buffer
shorter than 32 bytes is an error, and the receiver is then left as it
was. -/
def Hash.UnmarshalBinaryData (data : Bytes) : Except Error (Hash × Bytes) :=
  if h : 32 ≤ data.length then
    .ok (⟨data.take 32, by rw [List.length_take]; omega⟩, data.drop 32)
  else .error .notEnoughData

/-- Modelled from the spec: `primitives.Signature` is missing from the
sources; the spec makes it a public-key/signature pair. A value whose key or
signature bytes are not of the wire width (as the zero value) is
incomplete. -/
structure Signature where
  Pub : Bytes
  Sig : Bytes
deriving DecidableEq

/-- Modelled from the spec: `new(primitives.Signature)`, the zero value. -/
def Signature.new : Signature := ⟨[], []⟩

/-- Modelled from the spec: `Signature.GetSignature`, the signature bytes
without the key. -/
def Signature.GetSignature (s : Signature) : Bytes := s.Sig

/-- Modelled from the spec: `Signature.MarshalBinary` (missing from the
sources) writes the key and then the signature bytes, both fixed-width; an
incomplete signature is a marshaling error. -/
def Signature.MarshalBinary (W : Wire) (s : Signature) : Except Error Bytes :=
  if s.Pub.length = W.PubKeyLen ∧ s.Sig.length = W.SigLen then .ok (s.Pub ++ s.Sig)
  else .error .signatureNotComplete

/-- Modelled from the spec: `Signature.UnmarshalBinaryData` (missing from the
sources) reads the key and then the signature bytes off the front of the
buffer and returns the rest; a buffer shorter than the two widths is an
error, and the receiver is then left as it was. -/
def Signature.UnmarshalBinaryData (W : Wire) (data : Bytes) :
    Except Error (Signature × Bytes) :=
  if data.length < W.PubKeyLen + W.SigLen then .error .notEnoughData
  else .ok (⟨data.take W.PubKeyLen, (data.drop W.PubKeyLen).take W.SigLen⟩,
            data.drop (W.PubKeyLen + W.SigLen))

/-- The part of `interfaces.IState` that the message uses for validation: the
Go method returns `(bool, error)`. -/
structure IState where
  VerifyFederatedSignature : Bytes → Bytes → Bool × Option Error

/-! ## The message -/

/-- The part of the embedded `MessageBase` that the message file uses: the
memoized message hash. -/
structure MessageBase where
  MsgHash : Option Hash
deriving DecidableEq

/-- Go: `type FullServerFault struct`. -/
structure FullServerFault extends MessageBase where
  Timestamp : Option Timestamp
  ServerID : Option Hash
  VMIndex : Byte
  DBHeight : Uint32
  Height : Uint32
  SignatureList : List Signature
  Signature : Option Signature
  hash : Option Hash
deriving DecidableEq

/-- Go: `new(FullServerFault)`, every field at its zero value. -/
def FullServerFault.new : FullServerFault :=
  { MsgHash := none, Timestamp := none, ServerID := none, VMIndex := 0,
    DBHeight := 0, Height := 0, SignatureList := [], Signature := none,
    hash := none }

/-- Go: `func (m *FullServerFault) Type() byte`. -/
def FullServerFault.Type (W : Wire) (_m : FullServerFault) : Byte :=
  W.FED_SERVER_FAULT_MSG

/-- Go: `func (m *FullServerFault) GetSignature()`. -/
def FullServerFault.GetSignature (m : FullServerFault) : Option Factomd.Signature :=
  m.Signature

/-- Go: `func (m *FullServerFault) MarshalForSignature() (data []byte, err error)`.
A call of `MarshalBinary` on a nil `Timestamp` or `ServerID` panics, and the
deferred `recover` turns the panic into the returned error. -/
def FullServerFault.MarshalForSignature (W : Wire) (m : FullServerFault) :
    Except Error Bytes :=
  match m.Timestamp with
  | none => .error (.marshalRecovered .nilDereference)
  | some ts =>
    match ts.MarshalBinary W with
    | .error e => .error e
    | .ok d1 =>
      match m.ServerID with
      | none => .error (.marshalRecovered .nilDereference)
      | some sid =>
        match sid.MarshalBinary with
        | .error e => .error e
        | .ok d2 =>
          .ok ([m.Type W] ++ d1 ++ d2 ++ [m.VMIndex]
                ++ putUint32 m.DBHeight ++ putUint32 m.Height)

/-- Go: `func (m *FullServerFault) MarshalBinary() (data []byte, err error)`. -/
def FullServerFault.MarshalBinary (W : Wire) (m : FullServerFault) :
    Except Error Bytes :=
  match m.MarshalForSignature W with
  | .error e => .error e
  | .ok resp =>
    match m.GetSignature with
    | some sig =>
      match sig.MarshalBinary W with
      | .error e => .error e
      | .ok sigBytes => .ok (resp ++ sigBytes)
    | none => .ok resp

/-- What `UnmarshalBinaryData` leaves behind: the receiver after the call and
the two Go results (`newData` is `none` for a nil slice). -/
structure Unmarshaled where
  m : FullServerFault
  newData : Option Bytes
  err : Option Error
deriving DecidableEq

/-- Go: `func (m *FullServerFault) UnmarshalBinaryData(data []byte) (newData []byte, err error)`.
The results are named, so when the deferred `recover` catches a panic the
call returns the `newData` assigned last together with the recovered
error. In a tuple assignment the right-hand sides are evaluated before any
assignment, so a panic in one of them assigns nothing. -/
def FullServerFault.UnmarshalBinaryData (W : Wire) (m : FullServerFault) (data : Bytes) :
    Unmarshaled :=
  -- newData = data; newData[0] panics on an empty buffer
  match data with
  | [] => ⟨m, some data, some (.unmarshalRecovered .indexOutOfRange)⟩
  | b0 :: newData1 =>
    if b0 ≠ m.Type W then ⟨m, none, some .invalidMessageType⟩
    else
      -- newData = newData[1:]; m.Timestamp = new(primitives.Timestamp)
      let m1 := { m with Timestamp := some Factomd.Timestamp.new }
      match Factomd.Timestamp.UnmarshalBinaryData W newData1 with
      | .error e => ⟨m1, none, some e⟩
      | .ok (ts, newData2) =>
        let m2 := { m1 with Timestamp := some ts }
        -- if m.ServerID == nil { m.ServerID = primitives.NewZeroHash() }
        let m3 := { m2 with ServerID := some (m2.ServerID.getD NewZeroHash) }
        match Hash.UnmarshalBinaryData newData2 with
        | .error e => ⟨m3, none, some e⟩
        | .ok (sid, newData3) =>
          let m4 := { m3 with ServerID := some sid }
          -- m.VMIndex, newData = newData[0], newData[1:]
          match newData3 with
          | [] => ⟨m4, some newData3, some (.unmarshalRecovered .indexOutOfRange)⟩
          | vm :: newData4 =>
            let m5 := { m4 with VMIndex := vm }
            -- m.DBHeight, newData = binary.BigEndian.Uint32(newData[0:4]), newData[4:]
            if newData4.length < 4 then
              ⟨m5, some newData4, some (.unmarshalRecovered .sliceBoundsOutOfRange)⟩
            else
              let m6 := { m5 with DBHeight := BigEndian.Uint32 (newData4.take 4) }
              let newData5 := newData4.drop 4
              -- m.Height, newData = binary.BigEndian.Uint32(newData[0:4]), newData[4:]
              if newData5.length < 4 then
                ⟨m6, some newData5, some (.unmarshalRecovered .sliceBoundsOutOfRange)⟩
              else
                let m7 := { m6 with Height := BigEndian.Uint32 (newData5.take 4) }
                let newData6 := newData5.drop 4
                if newData6.length > 0 then
                  -- m.Signature = new(primitives.Signature)
                  let m8 := { m7 with Signature := some Factomd.Signature.new }
                  match Factomd.Signature.UnmarshalBinaryData W newData6 with
                  | .error e => ⟨m8, none, some e⟩
                  | .ok (sig, newData7) =>
                    ⟨{ m8 with Signature := some sig }, some newData7, none⟩
                else ⟨m7, some newData6, none⟩

/-- Go: `func (m *FullServerFault) Validate(state interfaces.IState) int`.
There is no `recover` here: the call `m.Signature.GetSignature()` on a nil
`Signature` is a panic that escapes. -/
def FullServerFault.Validate (W : Wire) (m : FullServerFault) (state : IState) :
    Outcome Int :=
  match m.MarshalForSignature W with
  | .error _ => .ret (-1)
  | .ok bytes =>
    match m.Signature with
    | none => .panic .nilDereference
    | some s =>
      let sig := s.GetSignature
      match state.VerifyFederatedSignature bytes sig with
      | (_, some _) => .ret (-1)
      | (sfSigned, none) => if !sfSigned then .ret (-1) else .ret 1

/-! ## Auxiliary definitions used in the statements -/

/-- The receiver once the five fixed fields have been assigned. -/
def withFixed (m : FullServerFault) (ts : Timestamp) (sid : Hash) (vm : Byte)
    (db ht : Uint32) : FullServerFault :=
  { m with Timestamp := some ts, ServerID := some sid, VMIndex := vm, DBHeight := db,
           Height := ht }

/-- The byte layout of the fixed part of the wire format: tag, timestamp
bytes, server id, VM index, and the two four-byte heights. -/
def fixedFields (W : Wire) (tsb : Bytes) (sid : Hash) (vm : Byte) (db hb : Bytes) : Bytes :=
  W.FED_SERVER_FAULT_MSG :: (tsb ++ (sid.bytes ++ (vm :: (db ++ hb))))

/-- The number of bytes of the fixed part: tag, timestamp, 32-byte ServerID,
VMIndex, DBHeight, Height. -/
def fixedLen (W : Wire) : Nat := 1 + W.TimestampLen + 32 + 1 + 4 + 4

/-- A message whose fields fit the wire format: the timestamp is present and
fits its field, the server id is present, and a signature, when there is one,
is complete. -/
def FullServerFault.WellFormed (W : Wire) (m : FullServerFault) : Prop :=
  (∃ ts, m.Timestamp = some ts ∧ ts.millis < 256 ^ W.TimestampLen) ∧
  (∃ sid, m.ServerID = some sid) ∧
  (∀ s, m.Signature = some s → s.Pub.length = W.PubKeyLen ∧ s.Sig.length = W.SigLen)

/-! ## A concrete message, for evaluating the definitions -/

/-- A wire format with a six-byte timestamp, a 32-byte key and a 64-byte
signature. -/
def exampleWire : Wire :=
  { FED_SERVER_FAULT_MSG := 3, TimestampLen := 6, PubKeyLen := 32, SigLen := 64 }

/-- A server identity. -/
def exampleServerID : Hash := ⟨List.replicate 32 171, by simp⟩

/-- The fault message of the spec's scenario: DBHeight 100, Height 7,
VMIndex 3, not yet signed. -/
def exampleUnsigned : FullServerFault :=
  { FullServerFault.new with
    Timestamp := some ⟨1480000000000⟩, ServerID := some exampleServerID,
    VMIndex := 3, DBHeight := 100, Height := 7 }

/-- A complete signature value for the example wire format. -/
def exampleSignature : Signature := ⟨List.replicate 32 17, List.replicate 64 34⟩

/-- The example message carrying the example signature. -/
def exampleSigned : FullServerFault :=
  { exampleUnsigned with Signature := some exampleSignature }

/-- The signable payload of the example message on the example wire. -/
def examplePayload : Bytes :=
  [3, 1, 88, 150, 223, 208, 0] ++ List.replicate 32 171 ++ [3, 0, 0, 0, 100, 0, 0, 0, 7]

/-- The marshaled example signature: key, then signature bytes. -/
def exampleSigBytes : Bytes := List.replicate 32 17 ++ List.replicate 64 34

/-- A node state whose federated key K signed the example payload: its
verifier accepts the example signature on the example payload and nothing
else. -/
def exampleState : IState :=
  { VerifyFederatedSignature := fun payload sig =>
      (decide (payload = examplePayload ∧ sig = exampleSignature.Sig), none) }

/-- A node state that knows another key only: its verifier rejects the
example signature. -/
def otherKeyState : IState :=
  { VerifyFederatedSignature := fun _ _ => (false, none) }

/-- A node state whose verifier fails with an error. -/
def failingState : IState :=
  { VerifyFederatedSignature := fun _ _ => (true, some (.collaborator 1)) }

/-- A node state whose verifier accepts every payload under every
signature. -/
def acceptAllState : IState :=
  { VerifyFederatedSignature := fun _ _ => (true, none) }

/-! ## Equality, hashing, signing and execution of the message -/

/-- Modelled from the spec: `Signature.IsSameAs` is missing from the sources;
the spec makes two signatures equal exactly when both the key and the
signature bytes match. The argument is an interface value: a nil argument is
no signature and is not the same as the receiver. -/
def Signature.IsSameAs (a : Signature) (b : Option Signature) : Bool :=
  match b with
  | none => false
  | some b => decide (a.Pub = b.Pub ∧ a.Sig = b.Sig)

/-- Go: `func (a *FullServerFault) IsSameAs(b *FullServerFault) bool`. There is
no `recover`: `GetTimeMilli` on a nil `Timestamp` is a panic that escapes. -/
def FullServerFault.IsSameAs (a : FullServerFault) (b : Option FullServerFault) :
    Outcome Bool :=
  match b with
  | none => .ret false
  | some b =>
    match a.Timestamp with
    | none => .panic .nilDereference
    | some ta =>
      match b.Timestamp with
      | none => .panic .nilDereference
      | some tb =>
        if ta.GetTimeMilli ≠ tb.GetTimeMilli then .ret false
        else if a.Signature = none ∧ b.Signature ≠ none then .ret false
        else
          match a.Signature with
          | some sa => if sa.IsSameAs b.Signature = false then .ret false else .ret true
          | none => .ret true

/-- Go: `func (m *FullServerFault) GetMsgHash() interfaces.IHash`, with
`primitives.Sha` (missing from the sources) as the parameter `Sha`. The result
is the receiver after the call and the returned hash, `none` for nil. -/
def FullServerFault.GetMsgHash (Sha : Bytes → Hash) (W : Wire) (m : FullServerFault) :
    FullServerFault × Option Hash :=
  match m.MsgHash with
  | none =>
    match m.MarshalBinary W with
    | .error _ => (m, none)
    | .ok data => ({ m with MsgHash := some (Sha data) }, some (Sha data))
  | some h => (m, some h)

/-- Go: `func (m *FullServerFault) GetHash() interfaces.IHash`. -/
def FullServerFault.GetHash (Sha : Bytes → Hash) (W : Wire) (m : FullServerFault) :
    FullServerFault × Option Hash :=
  m.GetMsgHash Sha W

/-- Modelled from the spec: `interfaces.Signer` is missing from the sources;
the spec gives `sign(payload, signerKey) -> signature` and lets signing fail
(bad key material). -/
structure Signer where
  Sign : Bytes → Except Error Signature

/-- Modelled from the spec: `SignSignable` is missing from the sources; the
spec has the signature computed by the signer key over the signable payload
of the message, and a failure of either step reported. -/
def SignSignable (W : Wire) (s : FullServerFault) (key : Signer) : Except Error Signature :=
  match s.MarshalForSignature W with
  | .error e => .error e
  | .ok toSign => key.Sign toSign

/-- Go: `func (m *FullServerFault) Sign(key interfaces.Signer) error`: the
receiver after the call and the returned error. -/
def FullServerFault.Sign (W : Wire) (m : FullServerFault) (key : Signer) :
    FullServerFault × Option Error :=
  match SignSignable W m key with
  | .error err => (m, some err)
  | .ok signature => ({ m with Signature := some signature }, none)

/-- The part of `interfaces.IState` that the message uses for execution, over
a node state of type `σ`. The Go method `FollowerExecuteFullFault(m)` returns
nothing; it is handed the message pointer, so its effect is the node state
and the message it leaves. -/
structure IStateExec (σ : Type) where
  FollowerExecuteFullFault : σ → FullServerFault → σ × FullServerFault

/-- Go: `func (m *FullServerFault) FollowerExecute(state interfaces.IState)`. -/
def FullServerFault.FollowerExecute {σ : Type} (m : FullServerFault) (state : IStateExec σ)
    (st : σ) : σ × FullServerFault :=
  state.FollowerExecuteFullFault st m

/-- Go: `func (m *FullServerFault) LeaderExecute(state interfaces.IState)`. -/
def FullServerFault.LeaderExecute {σ : Type} (m : FullServerFault) (state : IStateExec σ)
    (st : σ) : σ × FullServerFault :=
  m.FollowerExecute state st

/-- Something that happens to a message between two reads of its hash: a
call of `Sign`, of `UnmarshalBinaryData` or of `GetMsgHash`, or an assignment
to one of the fields of `FullServerFault`. -/
inductive Change where
  | callSign (key : Signer)
  | callUnmarshalBinaryData (data : Bytes)
  | callGetMsgHash
  | setTimestamp (v : Option Timestamp)
  | setServerID (v : Option Hash)
  | setVMIndex (v : Byte)
  | setDBHeight (v : Uint32)
  | setHeight (v : Uint32)
  | setSignatureList (v : List Signature)
  | setSignature (v : Option Signature)

/-- The message after a change. -/
def Change.apply (Sha : Bytes → Hash) (W : Wire) (m : FullServerFault) :
    Change → FullServerFault
  | .callSign key => (m.Sign W key).1
  | .callUnmarshalBinaryData data => (m.UnmarshalBinaryData W data).m
  | .callGetMsgHash => (m.GetMsgHash Sha W).1
  | .setTimestamp v => { m with Timestamp := v }
  | .setServerID v => { m with ServerID := v }
  | .setVMIndex v => { m with VMIndex := v }
  | .setDBHeight v => { m with DBHeight := v }
  | .setHeight v => { m with Height := v }
  | .setSignatureList v => { m with SignatureList := v }
  | .setSignature v => { m with Signature := v }

/-- A stand-in digest for evaluating the definitions: thirty-two copies of the
sum of the bytes modulo 256. -/
def exampleSha (data : Bytes) : Hash :=
  ⟨List.replicate 32 (toByte (data.foldl (fun acc b => acc + b.val) 0)), by simp⟩

/-- A signer that knows key K: it signs every payload with the example
signature. -/
def exampleSigner : Signer := { Sign := fun _ => .ok exampleSignature }

/-- A signer whose key material is bad: signing fails. -/
def brokenSigner : Signer := { Sign := fun _ => .error (.collaborator 2) }

/-- A node that records the fault messages handed to it and leaves them as
they are. -/
def recordingState : IStateExec (List FullServerFault) :=
  { FollowerExecuteFullFault := fun log m => (log ++ [m], m) }

/-! ## The storage overlay for factoid blocks

`database/databaseOverlay/fblock.go` holds thin methods of `Overlay`; the
overlay itself, its constants and the block types are in files that are
missing from the sources. -/

/-- Modelled from the spec: the bucket tags of the overlay and the chain id of
the factoid chain (what `new(block.FBlock).GetChainID()` gives) are constants
missing from the sources. The spec gives every persisted block type three
single-byte bucket tags, body by content hash, height index and keyMR
index, and all block types one shared chain-head bucket keyed by chain id. -/
structure OverlayConsts where
  FACTOIDBLOCK : Byte
  FACTOIDBLOCK_NUMBER : Byte
  FACTOIDBLOCK_KEYMR : Byte
  CHAIN_HEAD : Byte
  FACTOID_CHAINID : Hash
deriving DecidableEq

/-- The body bucket of factoid blocks is a namespace of its own: its tag is
none of the tags of the index buckets and of the chain-head bucket. -/
def OverlayConsts.BodyBucketApart (K : OverlayConsts) : Prop :=
  K.FACTOIDBLOCK ≠ K.FACTOIDBLOCK_NUMBER ∧ K.FACTOIDBLOCK ≠ K.FACTOIDBLOCK_KEYMR ∧
  K.FACTOIDBLOCK ≠ K.CHAIN_HEAD

/-- Modelled from the spec: a block as the overlay sees it
(`interfaces.DatabaseBatchable`, and `interfaces.IFBlock` for a fetched
factoid block). The spec gives a block one chain, a numeric height, a
content-addressed key (the primary index) and a key Merkle root (the
secondary index), and lets its serialisation fail. -/
structure DatabaseBatchable where
  GetChainID : Hash
  DatabasePrimaryIndex : Hash
  DatabaseSecondaryIndex : Hash
  GetDatabaseHeight : Uint32
  MarshalBinary : Except Error Bytes
deriving DecidableEq

/-- Modelled from the spec: what a record of the store holds, a block body or
the content hash an index or head record points to. A stored block is kept as
the block it unmarshals to. -/
inductive Stored where
  | block (b : DatabaseBatchable)
  | hash (h : Hash)
deriving DecidableEq

/-- Modelled from the spec: one key-to-value write of a batch
(`interfaces.Record`). -/
structure Record where
  Bucket : Bytes
  Key : Bytes
  Data : Stored
deriving DecidableEq

/-- Modelled from the spec: the overlay over its key/value store, a logical
map from (bucket, key) to the stored value. A store that is out of order
(`fault`) answers every read and every batch with its error. -/
structure Overlay where
  DB : Bytes → Bytes → Option Stored
  fault : Option Error

/-- The store after one write. -/
def Overlay.put (f : Bytes → Bytes → Option Stored) (r : Record) :
    Bytes → Bytes → Option Stored :=
  fun bucket key => if bucket = r.Bucket ∧ key = r.Key then some r.Data else f bucket key

/-- Modelled from the spec: `PutInBatch` applies the writes of a batch
together, in order; on a storage error none of them is visible. -/
def Overlay.PutInBatch (db : Overlay) (records : List Record) : Overlay × Option Error :=
  match db.fault with
  | some e => (db, some e)
  | none => ({ db with DB := records.foldl Overlay.put db.DB }, none)

/-- Modelled from the spec: `ProcessBlockBatch` (missing from the sources)
writes, in one batch, the block under its content hash in the body bucket,
the height index and the keyMR index pointing to that content hash, and the
head pointer of the block's chain; it fails if the block cannot serialise. -/
def Overlay.ProcessBlockBatch (K : OverlayConsts) (db : Overlay)
    (blockBucket numberBucket secondaryIndexBucket : Bytes) (block : DatabaseBatchable) :
    Overlay × Option Error :=
  match block.MarshalBinary with
  | .error e => (db, some e)
  | .ok _ =>
    db.PutInBatch
      [ ⟨blockBucket, block.DatabasePrimaryIndex.bytes, .block block⟩,
        ⟨numberBucket, putUint32 block.GetDatabaseHeight, .hash block.DatabasePrimaryIndex⟩,
        ⟨secondaryIndexBucket, block.DatabaseSecondaryIndex.bytes,
          .hash block.DatabasePrimaryIndex⟩,
        ⟨[K.CHAIN_HEAD], block.GetChainID.bytes, .hash block.DatabasePrimaryIndex⟩ ]

/-- Modelled from the spec: `FetchBlock` (missing from the sources) looks the
key up in the bucket; an absent key is not found (no block, no error), and a
record that does not hold a block is a decode error. -/
def Overlay.FetchBlock (db : Overlay) (bucket : Bytes) (key : Hash) :
    Option DatabaseBatchable × Option Error :=
  match db.fault with
  | some e => (none, some e)
  | none =>
    match db.DB bucket key.bytes with
    | none => (none, none)
    | some (.block b) => (some b, none)
    | some (.hash _) => (none, some .notEnoughData)

/-- Modelled from the spec: `FetchHeadIndexByChainID` (missing from the
sources) reads the head pointer of a chain; a chain without a saved head is
not found (no hash, no error). -/
def Overlay.FetchHeadIndexByChainID (K : OverlayConsts) (db : Overlay) (chainID : Hash) :
    Option Hash × Option Error :=
  match db.fault with
  | some e => (none, some e)
  | none =>
    match db.DB [K.CHAIN_HEAD] chainID.bytes with
    | none => (none, none)
    | some (.hash h) => (some h, none)
    | some (.block _) => (none, some .notEnoughData)

/-- Modelled from the spec: `FetchChainHeadByChainID` (missing from the
sources) resolves the head pointer of the chain and then dereferences it in
the body bucket. -/
def Overlay.FetchChainHeadByChainID (K : OverlayConsts) (db : Overlay) (bucket : Bytes)
    (chainID : Hash) : Option DatabaseBatchable × Option Error :=
  match db.FetchHeadIndexByChainID K chainID with
  | (_, some err) => (none, some err)
  | (none, none) => (none, none)
  | (some blockHash, none) => db.FetchBlock bucket blockHash

/-- Go: `func (db *Overlay) ProcessFBlockBatch(block interfaces.DatabaseBatchable) error`:
the overlay after the call and the returned error. -/
def Overlay.ProcessFBlockBatch (K : OverlayConsts) (db : Overlay) (block : DatabaseBatchable) :
    Overlay × Option Error :=
  db.ProcessBlockBatch K [K.FACTOIDBLOCK] [K.FACTOIDBLOCK_NUMBER] [K.FACTOIDBLOCK_KEYMR] block

/-- Go: `func (db *Overlay) SaveFactoidBlockHead(fblock interfaces.DatabaseBatchable) error`. -/
def Overlay.SaveFactoidBlockHead (K : OverlayConsts) (db : Overlay)
    (fblock : DatabaseBatchable) : Overlay × Option Error :=
  db.ProcessFBlockBatch K fblock

/-- Go: `func (db *Overlay) FetchFactoidBlockHead() (interfaces.IFBlock, error)`. -/
def Overlay.FetchFactoidBlockHead (K : OverlayConsts) (db : Overlay) :
    Option DatabaseBatchable × Option Error :=
  match db.FetchChainHeadByChainID K [K.FACTOIDBLOCK] K.FACTOID_CHAINID with
  | (_, some err) => (none, some err)
  | (none, none) => (none, none)
  | (some block, none) => (some block, none)

/-- Bucket tags and a factoid chain id for evaluating the definitions. -/
def exampleConsts : OverlayConsts :=
  { FACTOIDBLOCK := 10, FACTOIDBLOCK_NUMBER := 11, FACTOIDBLOCK_KEYMR := 12, CHAIN_HEAD := 1,
    FACTOID_CHAINID := ⟨List.replicate 31 0 ++ [15], by simp⟩ }

/-- An overlay over an empty store in working order. -/
def emptyOverlay : Overlay := { DB := fun _ _ => none, fault := none }

/-- An overlay whose store is out of order. -/
def brokenOverlay : Overlay := { DB := fun _ _ => none, fault := some (.collaborator 3) }

/-- A factoid block at height 1. -/
def exampleBlock1 : DatabaseBatchable :=
  { GetChainID := exampleConsts.FACTOID_CHAINID,
    DatabasePrimaryIndex := ⟨List.replicate 32 1, by simp⟩,
    DatabaseSecondaryIndex := ⟨List.replicate 32 101, by simp⟩,
    GetDatabaseHeight := 1, MarshalBinary := .ok [1, 1, 1] }

/-- A factoid block at height 2. -/
def exampleBlock2 : DatabaseBatchable :=
  { GetChainID := exampleConsts.FACTOID_CHAINID,
    DatabasePrimaryIndex := ⟨List.replicate 32 2, by simp⟩,
    DatabaseSecondaryIndex := ⟨List.replicate 32 102, by simp⟩,
    GetDatabaseHeight := 2, MarshalBinary := .ok [2, 2, 2] }

/-- The four records that saving a factoid block writes. -/
def factoidBatch (K : OverlayConsts) (b : DatabaseBatchable) : List Record :=
  [ ⟨[K.FACTOIDBLOCK], b.DatabasePrimaryIndex.bytes, .block b⟩,
    ⟨[K.FACTOIDBLOCK_NUMBER], putUint32 b.GetDatabaseHeight, .hash b.DatabasePrimaryIndex⟩,
    ⟨[K.FACTOIDBLOCK_KEYMR], b.DatabaseSecondaryIndex.bytes, .hash b.DatabasePrimaryIndex⟩,
    ⟨[K.CHAIN_HEAD], b.GetChainID.bytes, .hash b.DatabasePrimaryIndex⟩ ]

/-! ## The entry event mapper

`events/eventservices/entryEventMapper.go`. The event message types are
generated code that is missing from the sources; their fields are the ones
the mapper assigns. A pointer is an `Option`, `none` for nil, and a nil slice
and an empty slice are both the empty list. -/

/-- Go: `eventmessages.Hash`. -/
structure EventHash where
  HashValue : Bytes
deriving DecidableEq

/-- Go: `eventmessages.ExternalId`. -/
structure ExternalId where
  BinaryValue : Bytes
deriving DecidableEq

/-- Go: `eventmessages.Content`. -/
structure Content where
  BinaryValue : Bytes
deriving DecidableEq

/-- Go: `eventmessages.EntryBlockEntry`. -/
structure EntryBlockEntry where
  Hash : Option EventHash
  ExternalIDs : List (Option ExternalId)
  Content : Option Content
  Version : Uint32
deriving DecidableEq

/-- The part of `interfaces.IEBEntry` that the mapper reads. `asEntry` is the
`Version` of the entry when its dynamic type is `*entryBlock.Entry`, the case
the type assertion of the mapper tests for. -/
structure IEBEntry where
  GetHash : Hash
  ExternalIDs : List Bytes
  GetContent : Bytes
  asEntry : Option Byte
deriving DecidableEq

/-- Go: `for i, x := range xs { result[i] = f(x) }`, from index `i` on. -/
def rangeAssign {α β : Type} (f : α → β) : List α → Nat → List (Option β) → List (Option β)
  | [], _, result => result
  | x :: xs, i, result => rangeAssign f xs (i + 1) (result.set i (some (f x)))

/-- Go: `func mapExternalIds(externalIds [][]byte) []*eventmessages.ExternalId`. -/
def mapExternalIds (externalIds : List Bytes) : List (Option ExternalId) :=
  rangeAssign (fun extId => ({ BinaryValue := extId } : ExternalId)) externalIds 0
    (List.replicate externalIds.length none)

/-- Go: `func mapEntryBlockHashes(entries []interfaces.IHash) []*eventmessages.Hash`. -/
def mapEntryBlockHashes (entries : List Hash) : List (Option EventHash) :=
  rangeAssign (fun entry => ({ HashValue := entry.bytes } : EventHash)) entries 0
    (List.replicate entries.length none)

/-- Go: `func mapEntryBlockEntry(entry interfaces.IEBEntry, shouldIncludeContent bool)`. -/
def mapEntryBlockEntry (entry : IEBEntry) (shouldIncludeContent : Bool) : EntryBlockEntry :=
  let blockEntry : EntryBlockEntry :=
    { Hash := some { HashValue := entry.GetHash.bytes }, ExternalIDs := [], Content := none,
      Version := 0 }
  if shouldIncludeContent then
    let blockEntry := { blockEntry with
      ExternalIDs := mapExternalIds entry.ExternalIDs,
      Content := some { BinaryValue := entry.GetContent } }
    match entry.asEntry with
    | some version => { blockEntry with Version := version.castLE (by decide) }
    | none => blockEntry
  else blockEntry

/-- Go: `func mapEntryBlockEntries(entries []interfaces.IEBEntry, shouldIncludeContent bool)`. -/
def mapEntryBlockEntries (entries : List IEBEntry) (shouldIncludeContent : Bool) :
    List (Option EntryBlockEntry) :=
  rangeAssign (fun entry => mapEntryBlockEntry entry shouldIncludeContent) entries 0
    (List.replicate entries.length none)

/-- An entry of dynamic type `*entryBlock.Entry` with two external ids. -/
def exampleEntry : IEBEntry :=
  { GetHash := exampleServerID, ExternalIDs := [[1, 2], [3]], GetContent := [7, 7, 7],
    asEntry := some 1 }

/-- Another complete signature value: the same key, other signature
bytes. -/
def otherSignature : Signature := ⟨List.replicate 32 17, List.replicate 64 35⟩

/-! ## Big-endian encoding -/

theorem toByte_val (b : Byte) : toByte b.val = b := by
  apply Fin.ext
  simp only [toByte]
  exact Nat.mod_eq_of_lt b.isLt

theorem beBytes_length (w n : Nat) : (beBytes w n).length = w := by
  induction w with
  | zero => rfl
  | succ w ih => simp [beBytes, ih]

theorem beVal_lt (bs : Bytes) : beVal bs < 256 ^ bs.length := by
  induction bs with
  | nil => simp [beVal]
  | cons b bs ih =>
    have hb := b.isLt
    simp only [beVal, List.length_cons, pow_succ]
    nlinarith

theorem beBytes_add_mul (w n k : Nat) : beBytes w (n + k * 256 ^ w) = beBytes w n := by
  induction w generalizing k with
  | zero => rfl
  | succ w ih =>
    have h : n + k * 256 ^ (w + 1) = n + (k * 256) * 256 ^ w := by ring
    simp only [beBytes]
    congr 1
    · apply Fin.ext
      simp only [toByte]
      rw [h, Nat.add_mul_div_right _ _ (by positivity), Nat.add_mul_mod_self_right]
    · rw [h, ih]

theorem beBytes_beVal (bs : Bytes) : beBytes bs.length (beVal bs) = bs := by
  induction bs with
  | nil => rfl
  | cons b bs ih =>
    simp only [List.length_cons, beBytes, beVal]
    have hlt := beVal_lt bs
    congr 1
    · rw [Nat.add_comm, Nat.add_mul_div_right _ _ (by positivity), Nat.div_eq_of_lt hlt,
        Nat.zero_add]
      exact toByte_val b
    · rw [Nat.add_comm, beBytes_add_mul, ih]

theorem beVal_beBytes (w n : Nat) : beVal (beBytes w n) = n % 256 ^ w := by
  induction w with
  | zero => simp [beBytes, beVal, Nat.mod_one]
  | succ w ih =>
    simp only [beBytes, beVal, beBytes_length, ih, toByte]
    have h1 : n % 256 ^ (w + 1) = n % 256 ^ w + 256 ^ w * (n / 256 ^ w % 256) := by
      rw [pow_succ, Nat.mod_mul]
    rw [h1]; ring

theorem putUint32_length (v : Uint32) : (putUint32 v).length = 4 := beBytes_length 4 v.val

theorem Uint32_putUint32 (v : Uint32) : BigEndian.Uint32 (putUint32 v) = v := by
  apply Fin.ext
  simp only [BigEndian.Uint32, putUint32, beVal_beBytes]
  have := v.isLt
  omega

theorem putUint32_Uint32 (b : Bytes) (h : b.length = 4) :
    putUint32 (BigEndian.Uint32 b) = b := by
  have hlt := beVal_lt b
  rw [h] at hlt
  simp only [BigEndian.Uint32, putUint32]
  rw [Nat.mod_eq_of_lt (by omega)]
  have := beBytes_beVal b
  rwa [h] at this

/-! ## The primitive codecs -/

theorem timestamp_unmarshal_append (W : Wire) (tsb rest : Bytes)
    (h : tsb.length = W.TimestampLen) :
    Timestamp.UnmarshalBinaryData W (tsb ++ rest) = .ok (⟨beVal tsb⟩, rest) := by
  simp only [Timestamp.UnmarshalBinaryData, List.length_append]
  rw [if_neg (by omega), ← h, List.take_left, List.drop_left]

theorem timestamp_unmarshal_ok (W : Wire) (data : Bytes) (ts : Timestamp) (rest : Bytes)
    (h : Timestamp.UnmarshalBinaryData W data = .ok (ts, rest)) :
    ∃ tsb, tsb.length = W.TimestampLen ∧ data = tsb ++ rest ∧ ts = ⟨beVal tsb⟩ := by
  unfold Timestamp.UnmarshalBinaryData at h
  split at h
  · cases h
  · rename_i hlen
    injection h with h
    injection h with h1 h2
    refine ⟨data.take W.TimestampLen, ?_, ?_, h1.symm⟩
    · rw [List.length_take]; omega
    · rw [← h2, List.take_append_drop]

theorem hash_unmarshal_append (sid : Hash) (rest : Bytes) :
    Hash.UnmarshalBinaryData (sid.bytes ++ rest) = .ok (sid, rest) := by
  have hs := sid.size
  have h1 : (sid.bytes ++ rest).take 32 = sid.bytes := by rw [← hs, List.take_left]
  have h2 : (sid.bytes ++ rest).drop 32 = rest := by rw [← hs, List.drop_left]
  unfold Hash.UnmarshalBinaryData
  rw [dif_pos (by rw [List.length_append]; omega)]
  simp only [h1, h2]

theorem hash_unmarshal_ok (data : Bytes) (sid : Hash) (rest : Bytes)
    (h : Hash.UnmarshalBinaryData data = .ok (sid, rest)) : data = sid.bytes ++ rest := by
  unfold Hash.UnmarshalBinaryData at h
  split at h
  · injection h with h
    injection h with h1 h2
    rw [← h1, ← h2, List.take_append_drop]
  · cases h

theorem signature_unmarshal_append (W : Wire) (s : Signature) (rest : Bytes)
    (hp : s.Pub.length = W.PubKeyLen) (hs : s.Sig.length = W.SigLen) :
    Signature.UnmarshalBinaryData W (s.Pub ++ s.Sig ++ rest) = .ok (s, rest) := by
  simp only [Signature.UnmarshalBinaryData, List.length_append]
  rw [if_neg (by omega)]
  have h1 : (s.Pub ++ s.Sig ++ rest).take W.PubKeyLen = s.Pub := by
    rw [List.append_assoc, ← hp, List.take_left]
  have h2 : (s.Pub ++ s.Sig ++ rest).drop W.PubKeyLen = s.Sig ++ rest := by
    rw [List.append_assoc, ← hp, List.drop_left]
  have h3 : (s.Pub ++ s.Sig ++ rest).drop (W.PubKeyLen + W.SigLen) = rest := by
    rw [← hp, ← hs, ← List.length_append, List.drop_left]
  rw [h1, h2, h3, ← hs, List.take_left]

theorem signature_unmarshal_ok (W : Wire) (data : Bytes) (s : Signature) (rest : Bytes)
    (h : Signature.UnmarshalBinaryData W data = .ok (s, rest)) :
    s.Pub.length = W.PubKeyLen ∧ s.Sig.length = W.SigLen ∧ data = s.Pub ++ s.Sig ++ rest := by
  unfold Signature.UnmarshalBinaryData at h
  split at h
  · cases h
  · rename_i hlen
    injection h with h
    injection h with h1 h2
    subst h1 h2
    refine ⟨?_, ?_, ?_⟩
    · simp only [List.length_take]; omega
    · simp only [List.length_take, List.length_drop]; omega
    · rw [List.append_assoc, ← List.drop_drop, List.take_append_drop, List.take_append_drop]

theorem signature_marshal_complete (W : Wire) (s : Signature)
    (hp : s.Pub.length = W.PubKeyLen) (hs : s.Sig.length = W.SigLen) :
    s.MarshalBinary W = .ok (s.Pub ++ s.Sig) := by
  simp only [Signature.MarshalBinary, hp, hs, and_self, if_true]

/-! ## Decoding a buffer of known layout, and the layout of a decoded buffer -/

theorem fixedFields_length (W : Wire) (tsb : Bytes) (sid : Hash) (vm : Byte) (db hb : Bytes)
    (htsb : tsb.length = W.TimestampLen) (hdb : db.length = 4) (hhb : hb.length = 4) :
    (fixedFields W tsb sid vm db hb).length = fixedLen W := by
  have hs := sid.size
  simp only [fixedFields, fixedLen, List.length_cons, List.length_append]
  omega

theorem unmarshal_encoded (W : Wire) (m : FullServerFault) (tsb : Bytes) (sid : Hash)
    (vm : Byte) (db hb tail : Bytes) (htsb : tsb.length = W.TimestampLen)
    (hdb : db.length = 4) (hhb : hb.length = 4) :
    m.UnmarshalBinaryData W (fixedFields W tsb sid vm db hb ++ tail) =
      if tail.length > 0 then
        match Signature.UnmarshalBinaryData W tail with
        | .error e =>
          ⟨{ withFixed m ⟨beVal tsb⟩ sid vm (BigEndian.Uint32 db) (BigEndian.Uint32 hb) with
              Signature := some Signature.new }, none, some e⟩
        | .ok (sig, nd) =>
          ⟨{ withFixed m ⟨beVal tsb⟩ sid vm (BigEndian.Uint32 db) (BigEndian.Uint32 hb) with
              Signature := some sig }, some nd, none⟩
      else
        ⟨withFixed m ⟨beVal tsb⟩ sid vm (BigEndian.Uint32 db) (BigEndian.Uint32 hb),
          some tail, none⟩ := by
  have h1 : (db ++ (hb ++ tail)).take 4 = db := by rw [← hdb, List.take_left]
  have h2 : (db ++ (hb ++ tail)).drop 4 = hb ++ tail := by rw [← hdb, List.drop_left]
  have h3 : (hb ++ tail).take 4 = hb := by rw [← hhb, List.take_left]
  have h4 : (hb ++ tail).drop 4 = tail := by rw [← hhb, List.drop_left]
  have h5 : ¬ (db ++ (hb ++ tail)).length < 4 := by rw [List.length_append]; omega
  have h6 : ¬ (hb ++ tail).length < 4 := by rw [List.length_append]; omega
  simp only [fixedFields, List.cons_append, List.append_assoc,
    FullServerFault.UnmarshalBinaryData, FullServerFault.Type, ne_eq, not_true_eq_false,
    if_false, timestamp_unmarshal_append W tsb _ htsb, hash_unmarshal_append, h1, h2, h3, h4, h5,
    h6, withFixed]

theorem unmarshal_shape (W : Wire) (m : FullServerFault) (data : Bytes)
    (h : (m.UnmarshalBinaryData W data).err = none) :
    ∃ tsb sid vm db hb tail, tsb.length = W.TimestampLen ∧ db.length = 4 ∧ hb.length = 4 ∧
      data = fixedFields W tsb sid vm db hb ++ tail := by
  unfold FullServerFault.UnmarshalBinaryData at h
  split at h
  · cases h
  · rename_i b0 nd1
    split at h
    · cases h
    · rename_i hb0
      split at h
      · cases h
      · rename_i ts nd2 hts
        split at h
        · cases h
        · rename_i sid nd3 hsid
          split at h
          · cases h
          · rename_i vm nd4
            split at h
            · cases h
            · rename_i h4
              by_cases h5 : (List.drop 4 nd4).length < 4
              · rw [List.length_drop] at h5
                simp [h5] at h
              · clear h
                obtain ⟨tsb, htsb, hd1, -⟩ := timestamp_unmarshal_ok W _ _ _ hts
                have hd2 := hash_unmarshal_ok _ _ _ hsid
                refine ⟨tsb, sid, vm, nd4.take 4, (nd4.drop 4).take 4, (nd4.drop 4).drop 4,
                  htsb, ?_, ?_, ?_⟩
                · rw [List.length_take]; omega
                · rw [List.length_take]; omega
                · simp only [FullServerFault.Type, ne_eq, not_not] at hb0
                  simp only [fixedFields, List.cons_append, List.append_assoc]
                  rw [List.take_append_drop, List.take_append_drop, ← hd2, ← hd1, hb0]

/-! ## Marshaling -/

theorem marshalForSignature_eq (W : Wire) (m : FullServerFault) (ts : Timestamp) (sid : Hash)
    (hts : m.Timestamp = some ts) (hsid : m.ServerID = some sid) :
    m.MarshalForSignature W =
      .ok (fixedFields W (beBytes W.TimestampLen ts.millis) sid m.VMIndex
            (putUint32 m.DBHeight) (putUint32 m.Height)) := by
  simp only [FullServerFault.MarshalForSignature, hts, hsid, Timestamp.MarshalBinary,
    Hash.MarshalBinary, FullServerFault.Type, fixedFields, List.singleton_append,
    List.cons_append, List.append_assoc, List.nil_append]

theorem marshalForSignature_ok (W : Wire) (m : FullServerFault) (payload : Bytes)
    (h : m.MarshalForSignature W = .ok payload) :
    ∃ ts sid, m.Timestamp = some ts ∧ m.ServerID = some sid := by
  unfold FullServerFault.MarshalForSignature at h
  split at h
  · cases h
  · rename_i ts hts
    split at h
    · cases h
    · split at h
      · cases h
      · rename_i sid hsid
        exact ⟨ts, sid, hts, hsid⟩

theorem marshalBinary_signed (W : Wire) (m : FullServerFault) (s : Signature)
    (payload sigBytes : Bytes) (hs : m.Signature = some s)
    (hp : m.MarshalForSignature W = .ok payload) (hsb : s.MarshalBinary W = .ok sigBytes) :
    m.MarshalBinary W = .ok (payload ++ sigBytes) := by
  simp only [FullServerFault.MarshalBinary, hp, FullServerFault.GetSignature, hs, hsb]

theorem marshalBinary_unsigned (W : Wire) (m : FullServerFault) (payload : Bytes)
    (hs : m.Signature = none) (hp : m.MarshalForSignature W = .ok payload) :
    m.MarshalBinary W = .ok payload := by
  simp only [FullServerFault.MarshalBinary, hp, FullServerFault.GetSignature, hs]

/-- What decoding the bytes of a well-formed message into any receiver gives. -/
theorem unmarshal_marshal (W : Wire) (m r : FullServerFault) (ts : Timestamp) (sid : Hash)
    (hW : 0 < W.PubKeyLen + W.SigLen)
    (hts : m.Timestamp = some ts) (hfit : ts.millis < 256 ^ W.TimestampLen)
    (hsid : m.ServerID = some sid)
    (hsig : ∀ s, m.Signature = some s → s.Pub.length = W.PubKeyLen ∧ s.Sig.length = W.SigLen) :
    ∃ data, m.MarshalBinary W = .ok data ∧
      r.UnmarshalBinaryData W data =
        ⟨{ withFixed r ts sid m.VMIndex m.DBHeight m.Height with
            Signature := match m.Signature with
              | some s => some s
              | none => r.Signature },
          some [], none⟩ := by
  have hpay := marshalForSignature_eq W m ts sid hts hsid
  have hlen := beBytes_length W.TimestampLen ts.millis
  have hval : beVal (beBytes W.TimestampLen ts.millis) = ts.millis := by
    rw [beVal_beBytes, Nat.mod_eq_of_lt hfit]
  cases hs : m.Signature with
  | none =>
    refine ⟨fixedFields W (beBytes W.TimestampLen ts.millis) sid m.VMIndex
      (putUint32 m.DBHeight) (putUint32 m.Height), ?_, ?_⟩
    · simp only [FullServerFault.MarshalBinary, hpay, FullServerFault.GetSignature, hs]
    · have := unmarshal_encoded W r _ sid m.VMIndex _ _ [] hlen (putUint32_length m.DBHeight)
        (putUint32_length m.Height)
      rw [List.append_nil] at this
      rw [this]
      simp [hval, Uint32_putUint32, withFixed]
  | some s =>
    obtain ⟨hp, hq⟩ := hsig s hs
    refine ⟨fixedFields W (beBytes W.TimestampLen ts.millis) sid m.VMIndex
      (putUint32 m.DBHeight) (putUint32 m.Height) ++ (s.Pub ++ s.Sig), ?_, ?_⟩
    · simp only [FullServerFault.MarshalBinary, hpay, FullServerFault.GetSignature, hs,
        signature_marshal_complete W s hp hq]
    · have hdec := signature_unmarshal_append W s [] hp hq
      rw [List.append_nil] at hdec
      have hpos : (s.Pub ++ s.Sig).length > 0 := by rw [List.length_append]; omega
      rw [unmarshal_encoded W r _ sid m.VMIndex _ _ _ hlen (putUint32_length m.DBHeight)
        (putUint32_length m.Height), if_pos hpos, hdec]
      simp [hval, Uint32_putUint32, withFixed]

/-- C1. Round trip: on a wire format whose signature field is not empty, a
message with a timestamp that fits the timestamp field, a server id, any
VMIndex, DBHeight and Height, and either no signature or a complete one,
marshals successfully, and unmarshaling those bytes into a freshly constructed
message succeeds, leaves an empty remainder, and gives back the Timestamp,
ServerID, VMIndex, DBHeight, Height and Signature of the message. -/
theorem C1_marshal_unmarshal_roundtrip (W : Wire) (m : FullServerFault)
    (hW : 0 < W.PubKeyLen + W.SigLen) (hm : m.WellFormed W) :
    ∃ data, m.MarshalBinary W = .ok data ∧
      (FullServerFault.new.UnmarshalBinaryData W data).err = none ∧
      (FullServerFault.new.UnmarshalBinaryData W data).newData = some [] ∧
      (FullServerFault.new.UnmarshalBinaryData W data).m.Timestamp = m.Timestamp ∧
      (FullServerFault.new.UnmarshalBinaryData W data).m.ServerID = m.ServerID ∧
      (FullServerFault.new.UnmarshalBinaryData W data).m.VMIndex = m.VMIndex ∧
      (FullServerFault.new.UnmarshalBinaryData W data).m.DBHeight = m.DBHeight ∧
      (FullServerFault.new.UnmarshalBinaryData W data).m.Height = m.Height ∧
      (FullServerFault.new.UnmarshalBinaryData W data).m.Signature = m.Signature := by
  obtain ⟨⟨ts, hts, hfit⟩, ⟨sid, hsid⟩, hsig⟩ := hm
  obtain ⟨data, hdata, hdec⟩ :=
    unmarshal_marshal W m FullServerFault.new ts sid hW hts hfit hsid hsig
  refine ⟨data, hdata, ?_⟩
  rw [hdec]
  refine ⟨rfl, rfl, ?_, ?_, rfl, rfl, rfl, ?_⟩
  · simp only [withFixed, hts]
  · simp only [withFixed, hsid]
  · cases hs : m.Signature <;> simp [FullServerFault.new]

theorem exampleSigned_wellFormed : exampleSigned.WellFormed exampleWire :=
  ⟨⟨⟨1480000000000⟩, rfl, by decide⟩, ⟨exampleServerID, rfl⟩, by
    intro s hs
    cases hs
    exact ⟨rfl, rfl⟩⟩

/-- C1, at the message of the spec's scenario (DBHeight 100, Height 7,
VMIndex 3), signed. -/
theorem C1_marshal_unmarshal_roundtrip_witness :
    (0 < exampleWire.PubKeyLen + exampleWire.SigLen) ∧ exampleSigned.WellFormed exampleWire ∧
    ∃ data, exampleSigned.MarshalBinary exampleWire = .ok data ∧
      (FullServerFault.new.UnmarshalBinaryData exampleWire data).err = none ∧
      (FullServerFault.new.UnmarshalBinaryData exampleWire data).newData = some [] ∧
      (FullServerFault.new.UnmarshalBinaryData exampleWire data).m.Timestamp
        = exampleSigned.Timestamp ∧
      (FullServerFault.new.UnmarshalBinaryData exampleWire data).m.ServerID
        = exampleSigned.ServerID ∧
      (FullServerFault.new.UnmarshalBinaryData exampleWire data).m.VMIndex
        = exampleSigned.VMIndex ∧
      (FullServerFault.new.UnmarshalBinaryData exampleWire data).m.DBHeight
        = exampleSigned.DBHeight ∧
      (FullServerFault.new.UnmarshalBinaryData exampleWire data).m.Height
        = exampleSigned.Height ∧
      (FullServerFault.new.UnmarshalBinaryData exampleWire data).m.Signature
        = exampleSigned.Signature :=
  ⟨by decide, exampleSigned_wellFormed,
    C1_marshal_unmarshal_roundtrip exampleWire exampleSigned (by decide)
      exampleSigned_wellFormed⟩

/-- C2. When `MarshalForSignature` succeeds, its result is the type tag, the
timestamp encoding, the 32 bytes of the ServerID, the VMIndex byte, DBHeight
in four bytes big-endian and Height in four bytes big-endian, in this order
and with nothing between or after them; and it is the same whatever the
Signature field holds. -/
theorem C2_signable_payload_layout (W : Wire) (m : FullServerFault) (payload : Bytes)
    (h : m.MarshalForSignature W = .ok payload) :
    ∃ ts sid tsb, m.Timestamp = some ts ∧ m.ServerID = some sid ∧
      ts.MarshalBinary W = .ok tsb ∧ sid.bytes.length = 32 ∧
      payload = [W.FED_SERVER_FAULT_MSG] ++ tsb ++ sid.bytes ++ [m.VMIndex]
        ++ [toByte (m.DBHeight.val / 2 ^ 24), toByte (m.DBHeight.val / 2 ^ 16),
            toByte (m.DBHeight.val / 2 ^ 8), toByte m.DBHeight.val]
        ++ [toByte (m.Height.val / 2 ^ 24), toByte (m.Height.val / 2 ^ 16),
            toByte (m.Height.val / 2 ^ 8), toByte m.Height.val] ∧
      payload.length = 1 + tsb.length + 32 + 1 + 4 + 4 ∧
      ∀ sig, ({ m with Signature := sig } : FullServerFault).MarshalForSignature W
        = .ok payload := by
  obtain ⟨ts, sid, hts, hsid⟩ := marshalForSignature_ok W m payload h
  have hp := marshalForSignature_eq W m ts sid hts hsid
  rw [h] at hp
  injection hp with hp
  have hs := sid.size
  refine ⟨ts, sid, beBytes W.TimestampLen ts.millis, hts, hsid, rfl, hs, ?_, ?_, ?_⟩
  · rw [hp]
    simp [fixedFields, putUint32, beBytes]
  · rw [hp]
    simp only [fixedFields, List.length_cons, List.length_append, putUint32_length, hs]
    omega
  · intro sig
    rw [hp]
    exact marshalForSignature_eq W _ ts sid hts hsid

/-- C2, at the example message: the payload is the 48 bytes written out in
`examplePayload`, with or without the signature. -/
theorem C2_signable_payload_layout_witness :
    exampleSigned.MarshalForSignature exampleWire = .ok examplePayload ∧
    ∃ ts sid tsb, exampleSigned.Timestamp = some ts ∧ exampleSigned.ServerID = some sid ∧
      ts.MarshalBinary exampleWire = .ok tsb ∧ sid.bytes.length = 32 ∧
      examplePayload = [exampleWire.FED_SERVER_FAULT_MSG] ++ tsb ++ sid.bytes
        ++ [exampleSigned.VMIndex]
        ++ [toByte (exampleSigned.DBHeight.val / 2 ^ 24),
            toByte (exampleSigned.DBHeight.val / 2 ^ 16),
            toByte (exampleSigned.DBHeight.val / 2 ^ 8), toByte exampleSigned.DBHeight.val]
        ++ [toByte (exampleSigned.Height.val / 2 ^ 24),
            toByte (exampleSigned.Height.val / 2 ^ 16),
            toByte (exampleSigned.Height.val / 2 ^ 8), toByte exampleSigned.Height.val] ∧
      examplePayload.length = 1 + tsb.length + 32 + 1 + 4 + 4 ∧
      ∀ sig, ({ exampleSigned with Signature := sig } : FullServerFault).MarshalForSignature
        exampleWire = .ok examplePayload :=
  ⟨by decide, C2_signable_payload_layout exampleWire exampleSigned examplePayload (by decide)⟩

/-- C3. `MarshalBinary` is the signable payload followed by the marshaled
signature when the message is signed, and the signable payload alone when it
is not; it fails exactly when marshaling the payload fails or the message is
signed and marshaling the signature fails. -/
theorem C3_marshal_is_payload_then_signature (W : Wire) (m : FullServerFault) :
    (∀ s payload sigBytes, m.Signature = some s → m.MarshalForSignature W = .ok payload →
        s.MarshalBinary W = .ok sigBytes → m.MarshalBinary W = .ok (payload ++ sigBytes)) ∧
    (∀ payload, m.Signature = none → m.MarshalForSignature W = .ok payload →
        m.MarshalBinary W = .ok payload) ∧
    ((∃ e, m.MarshalBinary W = .error e) ↔
      ((∃ e, m.MarshalForSignature W = .error e) ∨
        ∃ s e, m.Signature = some s ∧ s.MarshalBinary W = .error e)) := by
  refine ⟨?_, ?_, ?_⟩
  · intro s payload sigBytes hs hp hsb
    exact marshalBinary_signed W m s payload sigBytes hs hp hsb
  · intro payload hs hp
    exact marshalBinary_unsigned W m payload hs hp
  · unfold FullServerFault.MarshalBinary FullServerFault.GetSignature
    cases hp : m.MarshalForSignature W with
    | error e => simp
    | ok payload =>
      cases hs : m.Signature with
      | none => simp
      | some s =>
        cases hsb : s.MarshalBinary W with
        | error e => simp [hsb]
        | ok sigBytes => simp [hsb]

/-- C3, at the example message: signed, it marshals to its payload followed by
the key and signature bytes. -/
theorem C3_marshal_is_payload_then_signature_witness :
    exampleSigned.MarshalBinary exampleWire = .ok (examplePayload ++ exampleSigBytes) :=
  (C3_marshal_is_payload_then_signature exampleWire exampleSigned).1 exampleSignature
    examplePayload exampleSigBytes rfl (by decide) (by decide)

/-- C4. Type discrimination: on a non-empty buffer whose first byte is not the
FullServerFault type tag, `UnmarshalBinaryData` returns the error
"Invalid Message type" and a nil remainder, whatever the receiver and the
bytes that follow. -/
theorem C4_wrong_type_tag_rejected (W : Wire) (m : FullServerFault) (b : Byte) (rest : Bytes)
    (h : b ≠ W.FED_SERVER_FAULT_MSG) :
    (m.UnmarshalBinaryData W (b :: rest)).err = some .invalidMessageType ∧
    (m.UnmarshalBinaryData W (b :: rest)).newData = none := by
  simp [FullServerFault.UnmarshalBinaryData, FullServerFault.Type, h]

/-- C4, at the example message's bytes with the tag replaced by 4. -/
theorem C4_wrong_type_tag_rejected_witness :
    (4 : Byte) ≠ exampleWire.FED_SERVER_FAULT_MSG ∧
    (FullServerFault.new.UnmarshalBinaryData exampleWire
        (4 :: (examplePayload ++ exampleSigBytes).tail)).err = some .invalidMessageType ∧
    (FullServerFault.new.UnmarshalBinaryData exampleWire
        (4 :: (examplePayload ++ exampleSigBytes).tail)).newData = none :=
  ⟨by decide, C4_wrong_type_tag_rejected exampleWire FullServerFault.new 4
    (examplePayload ++ exampleSigBytes).tail (by decide)⟩

/-! ## What a successful decode looks like -/

/-- A successful decode consumed the fixed fields and, when bytes followed
them, one signature; the receiver holds exactly what was read. -/
theorem unmarshal_success (W : Wire) (m : FullServerFault) (data : Bytes)
    (h : (m.UnmarshalBinaryData W data).err = none) :
    ∃ tsb sid vm db hb tail, tsb.length = W.TimestampLen ∧ db.length = 4 ∧ hb.length = 4 ∧
      data = fixedFields W tsb sid vm db hb ++ tail ∧
      ((tail = [] ∧ m.UnmarshalBinaryData W data =
          ⟨withFixed m ⟨beVal tsb⟩ sid vm (BigEndian.Uint32 db) (BigEndian.Uint32 hb),
            some [], none⟩) ∨
       (tail ≠ [] ∧ ∃ s nd, tail = s.Pub ++ s.Sig ++ nd ∧ s.Pub.length = W.PubKeyLen ∧
          s.Sig.length = W.SigLen ∧ m.UnmarshalBinaryData W data =
          ⟨{ withFixed m ⟨beVal tsb⟩ sid vm (BigEndian.Uint32 db) (BigEndian.Uint32 hb) with
              Signature := some s }, some nd, none⟩)) := by
  obtain ⟨tsb, sid, vm, db, hb, tail, htsb, hdb, hhb, hdata⟩ := unmarshal_shape W m data h
  refine ⟨tsb, sid, vm, db, hb, tail, htsb, hdb, hhb, hdata, ?_⟩
  have henc := unmarshal_encoded W m tsb sid vm db hb tail htsb hdb hhb
  rw [← hdata] at henc
  by_cases htail : tail.length > 0
  · right
    have hne : tail ≠ [] := by
      intro h0
      rw [h0] at htail
      exact absurd htail (by decide)
    rw [if_pos htail] at henc
    cases hsig : Signature.UnmarshalBinaryData W tail with
    | error e =>
      rw [hsig] at henc
      rw [henc] at h
      cases h
    | ok p =>
      obtain ⟨s, nd⟩ := p
      rw [hsig] at henc
      obtain ⟨hp, hq, ht⟩ := signature_unmarshal_ok W tail s nd hsig
      exact ⟨hne, s, nd, ht, hp, hq, henc⟩
  · left
    have h0 : tail = [] := by
      cases tail with
      | nil => rfl
      | cons a t => exact absurd (Nat.succ_pos t.length) htail
    rw [if_neg htail, h0] at henc
    exact ⟨h0, henc⟩

theorem unmarshal_success_length (W : Wire) (m : FullServerFault) (data : Bytes)
    (h : (m.UnmarshalBinaryData W data).err = none) : fixedLen W ≤ data.length := by
  obtain ⟨tsb, sid, vm, db, hb, tail, htsb, hdb, hhb, hdata, -⟩ := unmarshal_success W m data h
  rw [hdata, List.length_append, fixedFields_length W tsb sid vm db hb htsb hdb hhb]
  omega

/-- The layout of a buffer that decodes into a fresh receiver: the signable
payload of the decoded message, then its marshaled signature when bytes
followed the fixed fields, then the returned remainder. -/
theorem unmarshal_fresh_layout (W : Wire) (data : Bytes)
    (h : (FullServerFault.new.UnmarshalBinaryData W data).err = none) :
    ∃ payload sigBytes nd,
      (FullServerFault.new.UnmarshalBinaryData W data).newData = some nd ∧
      (FullServerFault.new.UnmarshalBinaryData W data).m.MarshalForSignature W = .ok payload ∧
      (FullServerFault.new.UnmarshalBinaryData W data).m.MarshalBinary W
        = .ok (payload ++ sigBytes) ∧
      payload.length = fixedLen W ∧ data = payload ++ sigBytes ++ nd ∧
      ((sigBytes = [] ∧ nd = [] ∧
          (FullServerFault.new.UnmarshalBinaryData W data).m.Signature = none) ∨
       (sigBytes ++ nd ≠ [] ∧ sigBytes.length = W.PubKeyLen + W.SigLen ∧
          ∃ s, (FullServerFault.new.UnmarshalBinaryData W data).m.Signature = some s ∧
            s.MarshalBinary W = .ok sigBytes)) := by
  obtain ⟨tsb, sid, vm, db, hb, tail, htsb, hdb, hhb, hdata, hres⟩ :=
    unmarshal_success W FullServerFault.new data h
  have hflen := fixedFields_length W tsb sid vm db hb htsb hdb hhb
  have hts : beBytes W.TimestampLen (beVal tsb) = tsb := by
    rw [← htsb]; exact beBytes_beVal tsb
  rcases hres with ⟨htail, hres⟩ | ⟨hne, s, nd, htail, hp, hq, hres⟩
  · have hpay : (withFixed FullServerFault.new ⟨beVal tsb⟩ sid vm (BigEndian.Uint32 db)
        (BigEndian.Uint32 hb)).MarshalForSignature W = .ok (fixedFields W tsb sid vm db hb) := by
      rw [marshalForSignature_eq W _ ⟨beVal tsb⟩ sid rfl rfl]
      simp only [withFixed, hts, putUint32_Uint32 db hdb, putUint32_Uint32 hb hhb]
    refine ⟨fixedFields W tsb sid vm db hb, [], [], ?_, ?_, ?_, hflen, ?_, Or.inl ⟨rfl, rfl, ?_⟩⟩
    · rw [hres]
    · rw [hres]; exact hpay
    · rw [hres, List.append_nil]
      exact marshalBinary_unsigned W _ _ rfl hpay
    · simp only [hdata, htail, List.append_nil]
    · rw [hres]; rfl
  · have hpay : ({ withFixed FullServerFault.new ⟨beVal tsb⟩ sid vm (BigEndian.Uint32 db)
        (BigEndian.Uint32 hb) with Signature := some s } : FullServerFault).MarshalForSignature W
          = .ok (fixedFields W tsb sid vm db hb) := by
      rw [marshalForSignature_eq W _ ⟨beVal tsb⟩ sid rfl rfl]
      simp only [withFixed, hts, putUint32_Uint32 db hdb, putUint32_Uint32 hb hhb]
    have hsb := signature_marshal_complete W s hp hq
    refine ⟨fixedFields W tsb sid vm db hb, s.Pub ++ s.Sig, nd, ?_, ?_, ?_, hflen, ?_,
      Or.inr ⟨?_, ?_, s, ?_, hsb⟩⟩
    · rw [hres]
    · rw [hres]; exact hpay
    · rw [hres]
      exact marshalBinary_signed W _ s _ _ rfl hpay hsb
    · simp only [hdata, htail, List.append_assoc]
    · intro h0
      apply hne
      rw [htail]
      exact h0
    · rw [List.length_append, hp, hq]
    · rw [hres]

/-- The bytes of a well-formed message: its payload, of the fixed length, and
after it the key and signature bytes when it is signed. -/
theorem marshal_wellFormed (W : Wire) (m : FullServerFault) (hm : m.WellFormed W) :
    ∃ ts sid, m.Timestamp = some ts ∧ ts.millis < 256 ^ W.TimestampLen ∧
      m.ServerID = some sid ∧
      m.MarshalForSignature W = .ok (fixedFields W (beBytes W.TimestampLen ts.millis) sid
        m.VMIndex (putUint32 m.DBHeight) (putUint32 m.Height)) ∧
      ((m.Signature = none ∧ m.MarshalBinary W =
          .ok (fixedFields W (beBytes W.TimestampLen ts.millis) sid m.VMIndex
            (putUint32 m.DBHeight) (putUint32 m.Height))) ∨
       (∃ s, m.Signature = some s ∧ s.Pub.length = W.PubKeyLen ∧ s.Sig.length = W.SigLen ∧
          m.MarshalBinary W =
          .ok (fixedFields W (beBytes W.TimestampLen ts.millis) sid m.VMIndex
            (putUint32 m.DBHeight) (putUint32 m.Height) ++ (s.Pub ++ s.Sig)))) := by
  obtain ⟨⟨ts, hts, hfit⟩, ⟨sid, hsid⟩, hsig⟩ := hm
  have hpay := marshalForSignature_eq W m ts sid hts hsid
  refine ⟨ts, sid, hts, hfit, hsid, hpay, ?_⟩
  cases hs : m.Signature with
  | none => exact Or.inl ⟨rfl, marshalBinary_unsigned W m _ hs hpay⟩
  | some s =>
    obtain ⟨hp, hq⟩ := hsig s hs
    exact Or.inr ⟨s, rfl, hp, hq,
      marshalBinary_signed W m s _ _ hs hpay (signature_marshal_complete W s hp hq)⟩

theorem take_eq_of_length_eq (l : Bytes) (n k : Nat) (h : (l.take n).length = k) :
    l.take n = l.take k := by
  rw [List.length_take] at h
  by_cases hn : n ≤ l.length
  · rw [Nat.min_eq_left hn] at h
    rw [h]
  · have hl : l.length = k := by rw [Nat.min_eq_right (by omega)] at h; exact h
    rw [List.take_of_length_le (by omega), List.take_of_length_le (by omega)]

/-- Decoding the signable payload of a well-formed message into a fresh
receiver gives the message without its signature. -/
theorem unmarshal_payload (W : Wire) (m : FullServerFault) (ts : Timestamp) (sid : Hash)
    (hfit : ts.millis < 256 ^ W.TimestampLen) :
    FullServerFault.new.UnmarshalBinaryData W
        (fixedFields W (beBytes W.TimestampLen ts.millis) sid m.VMIndex
          (putUint32 m.DBHeight) (putUint32 m.Height)) =
      ⟨withFixed FullServerFault.new ts sid m.VMIndex m.DBHeight m.Height, some [], none⟩ := by
  have hval : beVal (beBytes W.TimestampLen ts.millis) = ts.millis := by
    rw [beVal_beBytes, Nat.mod_eq_of_lt hfit]
  have := unmarshal_encoded W FullServerFault.new _ sid m.VMIndex _ _ []
    (beBytes_length W.TimestampLen ts.millis) (putUint32_length m.DBHeight)
    (putUint32_length m.Height)
  rw [List.append_nil] at this
  rw [this]
  simp [hval, Uint32_putUint32]

/-- A prefix of the bytes of a well-formed message decodes exactly when it is
the signable payload (the message cut after Height) or the whole message, and
then it is itself the encoding of what was decoded. -/
theorem prefix_decodes (W : Wire) (m : FullServerFault) (enc payload : Bytes)
    (hm : m.WellFormed W) (henc : m.MarshalBinary W = .ok enc)
    (hpay : m.MarshalForSignature W = .ok payload) (n : Nat) :
    ((FullServerFault.new.UnmarshalBinaryData W (enc.take n)).err = none ↔
      (enc.take n = payload ∨ enc.take n = enc)) ∧
    ((FullServerFault.new.UnmarshalBinaryData W (enc.take n)).err = none →
      (FullServerFault.new.UnmarshalBinaryData W (enc.take n)).newData = some [] ∧
      (FullServerFault.new.UnmarshalBinaryData W (enc.take n)).m.MarshalBinary W
        = .ok (enc.take n)) := by
  obtain ⟨ts, sid, hts, hfit, hsid, hpay2, hshape⟩ := marshal_wellFormed W m hm
  have hplen : payload.length = fixedLen W := by
    rw [hpay] at hpay2
    injection hpay2 with hpay2
    rw [hpay2]
    exact fixedFields_length W _ sid _ _ _ (beBytes_length _ _) (putUint32_length _)
      (putUint32_length _)
  have hpeq : payload = fixedFields W (beBytes W.TimestampLen ts.millis) sid m.VMIndex
      (putUint32 m.DBHeight) (putUint32 m.Height) := by
    rw [hpay] at hpay2
    injection hpay2
  -- the encoding is the payload followed by `sigPart`, empty or a full signature
  have hencs : ∃ sigPart, enc = payload ++ sigPart ∧
      (sigPart = [] ∨ (sigPart.length = W.PubKeyLen + W.SigLen ∧
        ∃ s : Signature, s.Pub.length = W.PubKeyLen ∧ s.Sig.length = W.SigLen ∧
          sigPart = s.Pub ++ s.Sig)) := by
    rcases hshape with ⟨-, he⟩ | ⟨s, -, hp, hq, he⟩
    · rw [henc] at he
      injection he with he
      exact ⟨[], by rw [he, hpeq, List.append_nil], Or.inl rfl⟩
    · rw [henc] at he
      injection he with he
      exact ⟨s.Pub ++ s.Sig, by rw [he, hpeq],
        Or.inr ⟨by rw [List.length_append, hp, hq], s, hp, hq, rfl⟩⟩
  obtain ⟨sigPart, hes, hsp⟩ := hencs
  have hpre : enc.take (fixedLen W) = payload := by
    rw [hes, ← hplen, List.take_left]
  have hok_payload : (FullServerFault.new.UnmarshalBinaryData W payload).err = none := by
    rw [hpeq, unmarshal_payload W m ts sid hfit]
  have hok_enc : (FullServerFault.new.UnmarshalBinaryData W enc).err = none := by
    rcases hsp with h0 | ⟨-, s, hp, hq, hs⟩
    · rw [hes, h0, List.append_nil]
      exact hok_payload
    · have hdec := signature_unmarshal_append W s [] hp hq
      rw [List.append_nil] at hdec
      rw [hes, hs, hpeq, unmarshal_encoded W FullServerFault.new _ sid m.VMIndex _ _ _
        (beBytes_length _ _) (putUint32_length _) (putUint32_length _), hdec]
      split <;> rfl
  -- a prefix that decodes has no remainder and is the payload or the whole
  have key : (FullServerFault.new.UnmarshalBinaryData W (enc.take n)).err = none →
      (enc.take n = payload ∨ enc.take n = enc) ∧
      (FullServerFault.new.UnmarshalBinaryData W (enc.take n)).newData = some [] ∧
      (FullServerFault.new.UnmarshalBinaryData W (enc.take n)).m.MarshalBinary W
        = .ok (enc.take n) := by
    intro h
    obtain ⟨pl, sb, nd, hnd, -, hmb, hpl, hd, hcase⟩ := unmarshal_fresh_layout W (enc.take n) h
    have hle : (enc.take n).length ≤ enc.length := by
      rw [List.length_take]; exact Nat.min_le_right _ _
    have hlen : (enc.take n).length = fixedLen W + sb.length + nd.length := by
      rw [hd, List.length_append, List.length_append, hpl]
    have helen : enc.length = fixedLen W + sigPart.length := by
      rw [hes, List.length_append, hplen]
    rcases hcase with ⟨hsb, hnd0, -⟩ | ⟨hne, hsbl, -⟩
    · rw [hsb, hnd0] at hlen
      have h1 : enc.take n = enc.take (fixedLen W) :=
        take_eq_of_length_eq enc n (fixedLen W) (by simpa using hlen)
      refine ⟨Or.inl (by rw [h1, hpre]), by rw [hnd, hnd0], ?_⟩
      rw [hmb, hd, hsb, hnd0, List.append_nil, List.append_nil]
    · have hndnil : nd = [] := by
        rcases hsp with h0 | ⟨hl, -⟩
        · rw [h0] at helen
          simp only [List.length_nil] at helen
          have hz : sb.length + nd.length = 0 := by omega
          exfalso
          apply hne
          have h1 : sb = [] := List.eq_nil_of_length_eq_zero (by omega)
          have h2 : nd = [] := List.eq_nil_of_length_eq_zero (by omega)
          rw [h1, h2]; rfl
        · exact List.eq_nil_of_length_eq_zero (by omega)
      have hfull : enc.take n = enc := by
        rcases hsp with h0 | ⟨hl, -⟩
        · rw [h0] at helen
          simp only [List.length_nil] at helen
          exfalso
          apply hne
          have h1 : sb = [] := List.eq_nil_of_length_eq_zero (by omega)
          rw [h1, hndnil]; rfl
        · have h1 : (enc.take n).length = enc.length := by
            rw [hndnil] at hlen
            simp only [List.length_nil] at hlen
            omega
          have h2 := take_eq_of_length_eq enc n enc.length h1
          rw [h2, List.take_length]
      refine ⟨Or.inr hfull, by rw [hnd, hndnil], ?_⟩
      rw [hmb, hd, hndnil, List.append_nil]
  refine ⟨⟨fun h => (key h).1, ?_⟩, fun h => (key h).2⟩
  rintro (h | h)
  · rw [h]; exact hok_payload
  · rw [h]; exact hok_enc

/-- C5. Truncation safety. For every receiver and every buffer the call
returns: either no error and a remainder that is the end of the buffer, or an
ordinary error (an out-of-range access is recovered as one). Every buffer
shorter than the fixed fields (tag, timestamp, 32-byte ServerID, VMIndex,
DBHeight, Height) gives an error, the empty buffer included. A prefix of the
bytes of a well-formed message decodes exactly when it is the message cut
after Height or the whole message, and then it is itself the encoding of what
was decoded, with no remainder; cut after Height, a message decodes as the
unsigned message with the same fields. -/
theorem C5_truncation_safety (W : Wire) :
    (∀ (m : FullServerFault) (data : Bytes),
      ((m.UnmarshalBinaryData W data).err = none ∧
        ∃ consumed rest, (m.UnmarshalBinaryData W data).newData = some rest ∧
          data = consumed ++ rest) ∨
      (∃ e, (m.UnmarshalBinaryData W data).err = some e)) ∧
    (∀ (m : FullServerFault) (data : Bytes), data.length < fixedLen W →
      ∃ e, (m.UnmarshalBinaryData W data).err = some e) ∧
    (∀ (m : FullServerFault),
      (m.UnmarshalBinaryData W []).err = some (.unmarshalRecovered .indexOutOfRange)) ∧
    (∀ (m : FullServerFault) (enc payload : Bytes), m.WellFormed W →
      m.MarshalBinary W = .ok enc → m.MarshalForSignature W = .ok payload → ∀ n : Nat,
      ((FullServerFault.new.UnmarshalBinaryData W (enc.take n)).err = none ↔
        (enc.take n = payload ∨ enc.take n = enc)) ∧
      ((FullServerFault.new.UnmarshalBinaryData W (enc.take n)).err = none →
        (FullServerFault.new.UnmarshalBinaryData W (enc.take n)).newData = some [] ∧
        (FullServerFault.new.UnmarshalBinaryData W (enc.take n)).m.MarshalBinary W
          = .ok (enc.take n))) ∧
    (∀ (m : FullServerFault) (payload : Bytes), m.WellFormed W →
      m.MarshalForSignature W = .ok payload →
      (FullServerFault.new.UnmarshalBinaryData W payload).err = none ∧
      (FullServerFault.new.UnmarshalBinaryData W payload).newData = some [] ∧
      (FullServerFault.new.UnmarshalBinaryData W payload).m.Timestamp = m.Timestamp ∧
      (FullServerFault.new.UnmarshalBinaryData W payload).m.ServerID = m.ServerID ∧
      (FullServerFault.new.UnmarshalBinaryData W payload).m.VMIndex = m.VMIndex ∧
      (FullServerFault.new.UnmarshalBinaryData W payload).m.DBHeight = m.DBHeight ∧
      (FullServerFault.new.UnmarshalBinaryData W payload).m.Height = m.Height ∧
      (FullServerFault.new.UnmarshalBinaryData W payload).m.Signature = none) := by
  refine ⟨?_, ?_, ?_, ?_, ?_⟩
  · intro m data
    cases herr : (m.UnmarshalBinaryData W data).err with
    | some e => exact Or.inr ⟨e, rfl⟩
    | none =>
      refine Or.inl ⟨rfl, ?_⟩
      obtain ⟨tsb, sid, vm, db, hb, tail, -, -, -, hdata, hres⟩ := unmarshal_success W m data herr
      rcases hres with ⟨htail, hres⟩ | ⟨-, s, nd, htail, -, -, hres⟩
      · exact ⟨data, [], by rw [hres], by rw [List.append_nil]⟩
      · refine ⟨fixedFields W tsb sid vm db hb ++ (s.Pub ++ s.Sig), nd, by rw [hres], ?_⟩
        simp only [hdata, htail, List.append_assoc]
  · intro m data hlen
    cases herr : (m.UnmarshalBinaryData W data).err with
    | some e => exact ⟨e, rfl⟩
    | none =>
      have := unmarshal_success_length W m data herr
      omega
  · intro m
    rfl
  · intro m enc payload hm henc hpay n
    exact prefix_decodes W m enc payload hm henc hpay n
  · intro m payload hm hpay
    obtain ⟨ts, sid, hts, hfit, hsid, hpay2, -⟩ := marshal_wellFormed W m hm
    rw [hpay] at hpay2
    injection hpay2 with hpay2
    rw [hpay2, unmarshal_payload W m ts sid hfit]
    exact ⟨rfl, rfl, hts.symm, hsid.symm, rfl, rfl, rfl, rfl⟩

/-- C5, at the example message: of the prefixes of its 144 bytes, the one of
47 bytes (one short of the fixed fields) and the one of 100 bytes (inside the
signature) are errors, and the one of 48 bytes decodes as the unsigned
message. -/
theorem C5_truncation_safety_witness :
    (∃ e, (FullServerFault.new.UnmarshalBinaryData exampleWire
      ((examplePayload ++ exampleSigBytes).take 47)).err = some e) ∧
    (FullServerFault.new.UnmarshalBinaryData exampleWire
      ((examplePayload ++ exampleSigBytes).take 100)).err = some .notEnoughData ∧
    (FullServerFault.new.UnmarshalBinaryData exampleWire
      ((examplePayload ++ exampleSigBytes).take 48)).err = none ∧
    (FullServerFault.new.UnmarshalBinaryData exampleWire examplePayload).m = exampleUnsigned :=
  ⟨(C5_truncation_safety exampleWire).2.1 FullServerFault.new
      ((examplePayload ++ exampleSigBytes).take 47) (by decide),
    by decide,
    ((C5_truncation_safety exampleWire).2.2.2.1 exampleSigned (examplePayload ++ exampleSigBytes)
      examplePayload exampleSigned_wellFormed (by decide) (by decide) 48).1.2 (Or.inl (by decide)),
    by decide⟩

/-! ## Validation -/

theorem validate_signed (W : Wire) (m : FullServerFault) (st : IState) (s : Signature)
    (payload : Bytes) (hs : m.Signature = some s)
    (hp : m.MarshalForSignature W = .ok payload) :
    m.Validate W st =
      if st.VerifyFederatedSignature payload s.GetSignature = (true, none) then .ret 1
      else .ret (-1) := by
  simp only [FullServerFault.Validate, hp, hs]
  rcases hv : st.VerifyFederatedSignature payload s.GetSignature with ⟨b, _ | e⟩
  · cases b <;> simp
  · simp

theorem validate_marshal_error (W : Wire) (m : FullServerFault) (st : IState) (e : Error)
    (hp : m.MarshalForSignature W = .error e) : m.Validate W st = .ret (-1) := by
  simp only [FullServerFault.Validate, hp]

/-- C6. For a signed message and any node state, `Validate` returns 1 exactly
when `MarshalForSignature` succeeds and the state's
`VerifyFederatedSignature` returns true with no error for that payload and
the message's signature; otherwise (the payload does not marshal, the
verification reports an error, or it returns false) it returns -1; it never
returns 0. -/
theorem C6_validate_by_signature (W : Wire) (m : FullServerFault) (st : IState)
    (s : Signature) (hs : m.Signature = some s) :
    (m.Validate W st = .ret 1 ↔
      ∃ payload, m.MarshalForSignature W = .ok payload ∧
        st.VerifyFederatedSignature payload s.GetSignature = (true, none)) ∧
    (m.Validate W st = .ret 1 ∨ m.Validate W st = .ret (-1)) ∧
    (∀ e, m.MarshalForSignature W = .error e → m.Validate W st = .ret (-1)) ∧
    (∀ payload b e, m.MarshalForSignature W = .ok payload →
      st.VerifyFederatedSignature payload s.GetSignature = (b, some e) →
      m.Validate W st = .ret (-1)) ∧
    (∀ payload, m.MarshalForSignature W = .ok payload →
      st.VerifyFederatedSignature payload s.GetSignature = (false, none) →
      m.Validate W st = .ret (-1)) ∧
    m.Validate W st ≠ .ret 0 := by
  cases hp : m.MarshalForSignature W with
  | error e =>
    have hv := validate_marshal_error W m st e hp
    rw [hv]
    refine ⟨?_, Or.inr rfl, fun _ _ => rfl, ?_, ?_, by decide⟩
    · constructor
      · intro h; exact absurd h (by decide)
      · rintro ⟨payload, h, -⟩; cases h
    · intro payload b e h; cases h
    · intro payload h; cases h
  | ok payload =>
    have hv := validate_signed W m st s payload hs hp
    rw [hv]
    by_cases hver : st.VerifyFederatedSignature payload s.GetSignature = (true, none)
    · rw [if_pos hver]
      refine ⟨⟨fun _ => ⟨payload, rfl, hver⟩, fun _ => rfl⟩, Or.inl rfl, ?_, ?_, ?_, by decide⟩
      · intro e h; cases h
      · intro p b e h hv2
        injection h with h
        rw [← h, hver] at hv2
        cases hv2
      · intro p h hv2
        injection h with h
        rw [← h, hver] at hv2
        cases hv2
    · rw [if_neg hver]
      refine ⟨⟨fun h => absurd h (by decide), ?_⟩, Or.inr rfl, fun _ _ => rfl,
        fun _ _ _ _ _ => rfl, fun _ _ _ => rfl, by decide⟩
      rintro ⟨p, h, hv2⟩
      injection h with h
      rw [← h] at hv2
      exact absurd hv2 hver

/-- C6, at the example message: valid under the state that knows the signing
key. -/
theorem C6_validate_by_signature_witness :
    exampleSigned.Signature = some exampleSignature ∧
    exampleSigned.Validate exampleWire exampleState = .ret 1 ∧
    exampleSigned.Validate exampleWire otherKeyState = .ret (-1) ∧
    exampleSigned.Validate exampleWire failingState = .ret (-1) :=
  ⟨rfl,
    (C6_validate_by_signature exampleWire exampleSigned exampleState exampleSignature rfl).1.2
      ⟨examplePayload, by decide, by decide⟩,
    by decide, by decide⟩

/-- C7. A buffer that holds the fixed fields and nothing after them decodes
into a fresh message without error, and `Validate` on the decoded message
then panics with a nil dereference (the call `m.Signature.GetSignature()` on
the nil `Signature`) instead of returning -1. -/
theorem C7_unsigned_validate_panics (W : Wire) (data : Bytes) (st : IState)
    (h : (FullServerFault.new.UnmarshalBinaryData W data).err = none)
    (hlen : data.length = fixedLen W) :
    (FullServerFault.new.UnmarshalBinaryData W data).m.Signature = none ∧
    (FullServerFault.new.UnmarshalBinaryData W data).m.Validate W st
      = .panic .nilDereference := by
  obtain ⟨pl, sb, nd, -, hmfs, -, hpl, hd, hcase⟩ := unmarshal_fresh_layout W data h
  rcases hcase with ⟨-, -, hsig⟩ | ⟨hne, -, -⟩
  · refine ⟨hsig, ?_⟩
    simp only [FullServerFault.Validate, hmfs, hsig]
  · exfalso
    apply hne
    have h1 : data.length = fixedLen W + sb.length + nd.length := by
      rw [hd, List.length_append, List.length_append, hpl]
    have h2 : sb = [] := List.eq_nil_of_length_eq_zero (by omega)
    have h3 : nd = [] := List.eq_nil_of_length_eq_zero (by omega)
    rw [h2, h3]; rfl

/-- C7, at the 48 bytes of the example payload: they decode without error, and
validating the decoded message panics. -/
theorem C7_unsigned_validate_panics_witness :
    (FullServerFault.new.UnmarshalBinaryData exampleWire examplePayload).err = none ∧
    examplePayload.length = fixedLen exampleWire ∧
    (FullServerFault.new.UnmarshalBinaryData exampleWire examplePayload).m.Signature = none ∧
    (FullServerFault.new.UnmarshalBinaryData exampleWire examplePayload).m.Validate exampleWire
      exampleState = .panic .nilDereference :=
  ⟨by decide, by decide,
    C7_unsigned_validate_panics exampleWire examplePayload exampleState (by decide) (by decide)⟩

/-! ## Tampering with the payload bytes -/

/-- Any buffer that starts with the tag and is at least as long as the fixed
fields splits into the fixed fields and a tail. -/
theorem exists_fixedFields (W : Wire) (l : Bytes) (h : fixedLen W ≤ l.length + 1) :
    ∃ tsb sid vm db hb tail, tsb.length = W.TimestampLen ∧ db.length = 4 ∧ hb.length = 4 ∧
      W.FED_SERVER_FAULT_MSG :: l = fixedFields W tsb sid vm db hb ++ tail := by
  simp only [fixedLen] at h
  have h1 : 32 ≤ (l.drop W.TimestampLen).length := by rw [List.length_drop]; omega
  have h2 : ((l.drop W.TimestampLen).drop 32).length = l.length - W.TimestampLen - 32 := by
    rw [List.length_drop, List.length_drop]
  cases hl2 : (l.drop W.TimestampLen).drop 32 with
  | nil =>
    rw [hl2] at h2
    simp only [List.length_nil] at h2
    omega
  | cons vm l3 =>
    rw [hl2] at h2
    simp only [List.length_cons] at h2
    refine ⟨l.take W.TimestampLen, ⟨(l.drop W.TimestampLen).take 32, ?_⟩, vm, l3.take 4,
      (l3.drop 4).take 4, (l3.drop 4).drop 4, ?_, ?_, ?_, ?_⟩
    · rw [List.length_take]; omega
    · rw [List.length_take]; omega
    · rw [List.length_take]; omega
    · rw [List.length_take, List.length_drop]; omega
    · simp only [fixedFields, List.cons_append, List.append_assoc]
      rw [List.take_append_drop, List.take_append_drop, ← hl2, List.take_append_drop,
        List.take_append_drop]

/-- A buffer with the tag in front and exactly the length of a signed message
decodes into any receiver, with no remainder, and the receiver then carries a
signature. -/
theorem unmarshal_of_signed_length (W : Wire) (m : FullServerFault) (l : Bytes)
    (hW : 0 < W.PubKeyLen + W.SigLen)
    (h : l.length + 1 = fixedLen W + W.PubKeyLen + W.SigLen) :
    (m.UnmarshalBinaryData W (W.FED_SERVER_FAULT_MSG :: l)).err = none := by
  obtain ⟨tsb, sid, vm, db, hb, tail, htsb, hdb, hhb, hdata⟩ :=
    exists_fixedFields W l (by omega)
  have hflen := fixedFields_length W tsb sid vm db hb htsb hdb hhb
  have htl : tail.length = W.PubKeyLen + W.SigLen := by
    have := congrArg List.length hdata
    rw [List.length_cons, List.length_append, hflen] at this
    omega
  rw [hdata, unmarshal_encoded W m tsb sid vm db hb tail htsb hdb hhb, if_pos (by omega)]
  simp only [Signature.UnmarshalBinaryData, htl, Nat.lt_irrefl, if_false]

theorem set_ne_self (l : Bytes) (i : Nat) (b : Byte) (hi : i < l.length)
    (hb : l[i]? ≠ some b) : l.set i b ≠ l := by
  intro h
  apply hb
  rw [← h, List.getElem?_set_self hi]

theorem signature_marshal_inj (W : Wire) (s t : Signature) (bs : Bytes)
    (hs : s.MarshalBinary W = .ok bs) (ht : t.MarshalBinary W = .ok bs) : s = t := by
  unfold Signature.MarshalBinary at hs ht
  split at hs
  · rename_i hls
    split at ht
    · rename_i hlt
      injection hs with hs
      injection ht with ht
      have hlen : s.Pub.length = t.Pub.length := by rw [hls.1, hlt.1]
      have := List.append_inj (hs.trans ht.symm) hlen
      cases s
      cases t
      simp only [Signature.mk.injEq]
      exact this
    · cases ht
  · cases hs

/-- A signature that marshals is complete, and its bytes are the key followed
by the signature bytes. -/
theorem signature_marshal_ok (W : Wire) (s : Signature) (sb : Bytes)
    (h : s.MarshalBinary W = .ok sb) :
    s.Pub.length = W.PubKeyLen ∧ s.Sig.length = W.SigLen ∧ sb = s.Pub ++ s.Sig := by
  unfold Signature.MarshalBinary at h
  split at h
  · rename_i hl
    injection h with h
    exact ⟨hl.1, hl.2, h.symm⟩
  · cases h

/-- C8. Tamper sensitivity. Let a signed message marshal, on a wire format
whose signature field is not empty, and let the state verify signatures by
key: its verifier accepts the message's signature for no payload other than
the message's own signable payload. Then replacing any single byte of the
signable-payload part of the marshaled bytes (tag, timestamp, ServerID,
VMIndex, DBHeight, Height) by a different byte gives a buffer for which
decoding into a fresh message followed by `Validate` returns -1, not 1 and
not 0. Replacing the tag byte makes decoding fail with the type error;
replacing a later byte gives a message with the same signature whose signable
payload is the changed payload. -/
theorem C8_tamper_invalid_under_binding_verifier (W : Wire) (m : FullServerFault)
    (st : IState) (s : Signature) (enc payload : Bytes) (i : Nat) (b : Byte)
    (hW : 0 < W.PubKeyLen + W.SigLen) (hs : m.Signature = some s)
    (henc : m.MarshalBinary W = .ok enc) (hpay : m.MarshalForSignature W = .ok payload)
    (hbind : ∀ p, p ≠ payload → st.VerifyFederatedSignature p s.GetSignature ≠ (true, none))
    (hi : i < payload.length) (hb : enc[i]? ≠ some b) :
    (FullServerFault.new.UnmarshalBinaryData W (enc.set i b)).m.Validate W st = .ret (-1) ∧
    (FullServerFault.new.UnmarshalBinaryData W (enc.set i b)).m.Validate W st ≠ .ret 1 ∧
    (FullServerFault.new.UnmarshalBinaryData W (enc.set i b)).m.Validate W st ≠ .ret 0 ∧
    (i = 0 →
      (FullServerFault.new.UnmarshalBinaryData W (enc.set i b)).err
        = some .invalidMessageType) ∧
    (0 < i →
      (FullServerFault.new.UnmarshalBinaryData W (enc.set i b)).err = none ∧
      (FullServerFault.new.UnmarshalBinaryData W (enc.set i b)).newData = some [] ∧
      (FullServerFault.new.UnmarshalBinaryData W (enc.set i b)).m.Signature = some s ∧
      (FullServerFault.new.UnmarshalBinaryData W (enc.set i b)).m.MarshalForSignature W
        = .ok (payload.set i b) ∧
      payload.set i b ≠ payload) := by
  obtain ⟨ts, sid, hts, hsid⟩ := marshalForSignature_ok W m payload hpay
  have hpay2 := marshalForSignature_eq W m ts sid hts hsid
  rw [hpay] at hpay2
  injection hpay2 with hpeq
  have hplen : payload.length = fixedLen W := by
    rw [hpeq]
    exact fixedFields_length W _ sid _ _ _ (beBytes_length _ _) (putUint32_length _)
      (putUint32_length _)
  obtain ⟨hp, hq, hes⟩ : s.Pub.length = W.PubKeyLen ∧ s.Sig.length = W.SigLen ∧
      enc = payload ++ (s.Pub ++ s.Sig) := by
    cases hsm : s.MarshalBinary W with
    | error e =>
      have := henc
      simp only [FullServerFault.MarshalBinary, hpay, FullServerFault.GetSignature, hs,
        hsm] at this
      cases this
    | ok sb =>
      obtain ⟨hp, hq, hsb⟩ := signature_marshal_ok W s sb hsm
      have he := marshalBinary_signed W m s payload sb hs hpay hsm
      rw [henc] at he
      injection he with he
      exact ⟨hp, hq, by rw [he, hsb]⟩
  have hset : enc.set i b = payload.set i b ++ (s.Pub ++ s.Sig) := by
    rw [hes, List.set_append_left i b hi]
  have hpb : payload[i]? ≠ some b := by
    rw [hes, List.getElem?_append_left hi] at hb
    exact hb
  have hne : payload.set i b ≠ payload := set_ne_self payload i b hi hpb
  have hn1 : (Outcome.ret (-1) : Outcome Int) ≠ .ret 1 := by decide
  have hn0 : (Outcome.ret (-1) : Outcome Int) ≠ .ret 0 := by decide
  cases i with
  | zero =>
    have hb0 : b ≠ W.FED_SERVER_FAULT_MSG := by
      intro h0
      apply hpb
      rw [hpeq, h0]
      simp [fixedFields]
    have hres : FullServerFault.new.UnmarshalBinaryData W (enc.set 0 b) =
        ⟨FullServerFault.new, none, some .invalidMessageType⟩ := by
      rw [hset, hpeq]
      simp [fixedFields, FullServerFault.UnmarshalBinaryData, FullServerFault.Type, hb0]
    rw [hres]
    exact ⟨rfl, hn1, hn0, fun _ => rfl, fun h => absurd h (Nat.lt_irrefl 0)⟩
  | succ j =>
    obtain ⟨rest, hrest⟩ : ∃ rest, payload = W.FED_SERVER_FAULT_MSG :: rest := by
      rw [hpeq]; exact ⟨_, rfl⟩
    have hdata : enc.set (j + 1) b = W.FED_SERVER_FAULT_MSG :: (rest.set j b ++ (s.Pub ++ s.Sig)) := by
      rw [hset, hrest]; rfl
    have hdlen : (enc.set (j + 1) b).length = fixedLen W + W.PubKeyLen + W.SigLen := by
      rw [List.length_set, hes, List.length_append, List.length_append, hplen, hp, hq]
      omega
    have hok : (FullServerFault.new.UnmarshalBinaryData W (enc.set (j + 1) b)).err = none := by
      rw [hdata]
      apply unmarshal_of_signed_length W _ _ hW
      rw [hdata, List.length_cons] at hdlen
      exact hdlen
    obtain ⟨pl, sb, nd, hnd, hmfs, -, hpl, hd, hcase⟩ :=
      unmarshal_fresh_layout W (enc.set (j + 1) b) hok
    have hlen2 : (enc.set (j + 1) b).length = fixedLen W + sb.length + nd.length := by
      rw [hd, List.length_append, List.length_append, hpl]
    rcases hcase with ⟨hsb, hnd0, -⟩ | ⟨-, hsbl, s2, hsig2, hmar2⟩
    · rw [hsb, hnd0] at hlen2
      simp only [List.length_nil] at hlen2
      omega
    · have hnd0 : nd = [] := List.eq_nil_of_length_eq_zero (by omega)
      rw [hnd0, List.append_nil, hset] at hd
      have hinj := List.append_inj hd (by rw [List.length_set, hplen, hpl])
      have hs2 : s2 = s := by
        apply signature_marshal_inj W s2 s sb hmar2
        rw [← hinj.2]
        exact signature_marshal_complete W s hp hq
      rw [hs2] at hsig2
      rw [← hinj.1] at hmfs
      have hval := validate_signed W _ st s _ hsig2 hmfs
      rw [if_neg (hbind _ hne)] at hval
      exact ⟨hval, by rw [hval]; exact hn1, by rw [hval]; exact hn0,
        fun h => absurd h (Nat.succ_ne_zero j),
        fun _ => ⟨hok, by rw [hnd, hnd0], hsig2, hmfs, hne⟩⟩

theorem exampleState_binding (p : Bytes) (hp : p ≠ examplePayload) :
    exampleState.VerifyFederatedSignature p exampleSignature.GetSignature ≠ (true, none) := by
  simp [exampleState, hp]

set_option maxRecDepth 100000 in
/-- C8, at the example message under the state that knows the signing key K:
the marshaled message decodes to a message that validates as 1; verified
against another key it is -1; and with the last byte of Height changed from 7
to 8 it is judged invalid under K. -/
theorem C8_tamper_invalid_under_binding_verifier_witness :
    exampleSigned.MarshalBinary exampleWire = .ok (examplePayload ++ exampleSigBytes) ∧
    (FullServerFault.new.UnmarshalBinaryData exampleWire
      (examplePayload ++ exampleSigBytes)).m.Validate exampleWire exampleState = .ret 1 ∧
    (FullServerFault.new.UnmarshalBinaryData exampleWire
      (examplePayload ++ exampleSigBytes)).m.Validate exampleWire otherKeyState = .ret (-1) ∧
    (examplePayload ++ exampleSigBytes)[47]? = some 7 ∧
    (FullServerFault.new.UnmarshalBinaryData exampleWire
      ((examplePayload ++ exampleSigBytes).set 47 8)).m.Validate exampleWire exampleState
        = .ret (-1) :=
  ⟨by decide, by decide, by decide, by decide,
    (C8_tamper_invalid_under_binding_verifier exampleWire exampleSigned exampleState
      exampleSignature (examplePayload ++ exampleSigBytes) examplePayload 47 8 (by decide)
      rfl (by decide) (by decide) exampleState_binding (by decide) (by decide)).1⟩

set_option maxRecDepth 100000 in
/-- The assumption on the verifier is needed: `Validate` returns what the
state's verifier answers, so under a state whose verifier accepts every
payload the example message with the last byte of Height changed from 7 to 8
still decodes and still validates as 1. -/
theorem acceptAll_validates_tampered :
    exampleSigned.MarshalBinary exampleWire = .ok (examplePayload ++ exampleSigBytes) ∧
    (FullServerFault.new.UnmarshalBinaryData exampleWire
      (examplePayload ++ exampleSigBytes)).m.Validate exampleWire acceptAllState = .ret 1 ∧
    47 < fixedLen exampleWire ∧
    (examplePayload ++ exampleSigBytes)[47]? = some 7 ∧
    (FullServerFault.new.UnmarshalBinaryData exampleWire
      ((examplePayload ++ exampleSigBytes).set 47 8)).err = none ∧
    (FullServerFault.new.UnmarshalBinaryData exampleWire
      ((examplePayload ++ exampleSigBytes).set 47 8)).m.Height = 8 ∧
    (FullServerFault.new.UnmarshalBinaryData exampleWire
      ((examplePayload ++ exampleSigBytes).set 47 8)).m.Validate exampleWire acceptAllState
        = .ret 1 ∧
    (FullServerFault.new.UnmarshalBinaryData exampleWire
      ((examplePayload ++ exampleSigBytes).set 47 8)).m.Validate exampleWire acceptAllState
        ≠ .ret (-1) := by
  decide

/-! ## The signature list -/

theorem unmarshal_signatureList (W : Wire) (m : FullServerFault) (data : Bytes) :
    (m.UnmarshalBinaryData W data).m.SignatureList = m.SignatureList := by
  simp only [FullServerFault.UnmarshalBinaryData]
  repeat' split
  all_goals rfl

/-- C9. `SignatureList` is not on the wire: messages that differ only in
`SignatureList` have the same `MarshalBinary` and `MarshalForSignature`
results; decoding never assigns `SignatureList`, so a fresh message has it
empty after any buffer; and a buffer that decodes is the signable payload,
then the marshaled primary `Signature` when bytes followed the fixed fields,
then the returned remainder, with nothing else between them. -/
theorem C9_signatureList_not_on_wire (W : Wire) :
    (∀ (m : FullServerFault) (l : List Signature),
      ({ m with SignatureList := l } : FullServerFault).MarshalBinary W = m.MarshalBinary W ∧
      ({ m with SignatureList := l } : FullServerFault).MarshalForSignature W
        = m.MarshalForSignature W) ∧
    (∀ (m : FullServerFault) (data : Bytes),
      (m.UnmarshalBinaryData W data).m.SignatureList = m.SignatureList) ∧
    (∀ data : Bytes, (FullServerFault.new.UnmarshalBinaryData W data).m.SignatureList = []) ∧
    (∀ data : Bytes, (FullServerFault.new.UnmarshalBinaryData W data).err = none →
      ∃ payload sigBytes nd,
        (FullServerFault.new.UnmarshalBinaryData W data).newData = some nd ∧
        (FullServerFault.new.UnmarshalBinaryData W data).m.MarshalForSignature W = .ok payload ∧
        data = payload ++ sigBytes ++ nd ∧
        ((sigBytes = [] ∧ nd = [] ∧
            (FullServerFault.new.UnmarshalBinaryData W data).m.Signature = none) ∨
         (∃ s, (FullServerFault.new.UnmarshalBinaryData W data).m.Signature = some s ∧
            s.MarshalBinary W = .ok sigBytes))) := by
  refine ⟨fun m l => ⟨rfl, rfl⟩, unmarshal_signatureList W, ?_, ?_⟩
  · intro data
    rw [unmarshal_signatureList]
    rfl
  · intro data h
    obtain ⟨pl, sb, nd, hnd, hmfs, -, -, hd, hcase⟩ := unmarshal_fresh_layout W data h
    refine ⟨pl, sb, nd, hnd, hmfs, hd, ?_⟩
    rcases hcase with hA | ⟨-, -, s, hs, hmar⟩
    · exact Or.inl hA
    · exact Or.inr ⟨s, hs, hmar⟩

/-- C9, at the example message: a signature list of three entries changes no
byte of the marshaled message, and the decoded message has none. -/
theorem C9_signatureList_not_on_wire_witness :
    ({ exampleSigned with
        SignatureList := [exampleSignature, exampleSignature, exampleSignature] }
      : FullServerFault).MarshalBinary exampleWire
      = .ok (examplePayload ++ exampleSigBytes) ∧
    (FullServerFault.new.UnmarshalBinaryData exampleWire
      (examplePayload ++ exampleSigBytes)).m.SignatureList = [] :=
  ⟨((C9_signatureList_not_on_wire exampleWire).1 exampleSigned
      [exampleSignature, exampleSignature, exampleSignature]).1.trans (by decide),
    (C9_signatureList_not_on_wire exampleWire).2.2.1 (examplePayload ++ exampleSigBytes)⟩

/-- C10. A buffer that decodes into a fresh message is the marshaled decoded
message followed by the returned remainder: the remainder is the end of the
buffer, and marshaling the decoded message gives back exactly the bytes that
were consumed. -/
theorem C10_decode_consumes_encoding (W : Wire) (data : Bytes)
    (h : (FullServerFault.new.UnmarshalBinaryData W data).err = none) :
    ∃ enc newData,
      (FullServerFault.new.UnmarshalBinaryData W data).newData = some newData ∧
      (FullServerFault.new.UnmarshalBinaryData W data).m.MarshalBinary W = .ok enc ∧
      data = enc ++ newData ∧ newData = data.drop enc.length := by
  obtain ⟨pl, sb, nd, hnd, -, hmb, -, hd, -⟩ := unmarshal_fresh_layout W data h
  refine ⟨pl ++ sb, nd, hnd, hmb, hd, ?_⟩
  rw [hd, List.drop_left]

set_option maxRecDepth 100000 in
/-- C10, at the example message followed by two more bytes: the decoder
returns the two bytes and the decoded message marshals to the 144 bytes before
them. -/
theorem C10_decode_consumes_encoding_witness :
    (FullServerFault.new.UnmarshalBinaryData exampleWire
      (examplePayload ++ exampleSigBytes ++ [9, 10])).err = none ∧
    (FullServerFault.new.UnmarshalBinaryData exampleWire
      (examplePayload ++ exampleSigBytes ++ [9, 10])).newData = some [9, 10] ∧
    ∃ enc newData,
      (FullServerFault.new.UnmarshalBinaryData exampleWire
        (examplePayload ++ exampleSigBytes ++ [9, 10])).newData = some newData ∧
      (FullServerFault.new.UnmarshalBinaryData exampleWire
        (examplePayload ++ exampleSigBytes ++ [9, 10])).m.MarshalBinary exampleWire = .ok enc ∧
      examplePayload ++ exampleSigBytes ++ [9, 10] = enc ++ newData ∧
      newData = (examplePayload ++ exampleSigBytes ++ [9, 10]).drop enc.length :=
  ⟨by decide, by decide,
    C10_decode_consumes_encoding exampleWire (examplePayload ++ exampleSigBytes ++ [9, 10])
      (by decide)⟩

/-! ## Equality of messages -/

theorem isSameAs_eq (a b : FullServerFault) (ta tb : Timestamp)
    (ha : a.Timestamp = some ta) (hb : b.Timestamp = some tb) :
    a.IsSameAs (some b) =
      .ret (decide (ta.GetTimeMilli = tb.GetTimeMilli) &&
        (match a.Signature, b.Signature with
          | none, none => true
          | none, some _ => false
          | some sa, sb => sa.IsSameAs sb)) := by
  simp only [FullServerFault.IsSameAs, ha, hb]
  by_cases ht : ta.GetTimeMilli = tb.GetTimeMilli
  · cases hsa : a.Signature with
    | none => cases hsb : b.Signature <;> simp [ht]
    | some sa => cases hsame : sa.IsSameAs b.Signature <;> simp [ht, hsame]
  · simp [ht]

/-- C11. For two messages with timestamps, `IsSameAs(a, b)` returns true
exactly when the timestamps are equal in milliseconds and either neither has
a signature or both have one and the two signatures are the same; otherwise
it returns false, and it returns false when `b` is nil. Only `Timestamp` and
`Signature` are read: messages that agree on these two fields give the same
result, and a message is reported the same as a copy that differs from it in
ServerID, VMIndex, DBHeight, Height and SignatureList. -/
theorem C11_isSameAs_timestamp_and_signature (a b : FullServerFault) (ta tb : Timestamp)
    (ha : a.Timestamp = some ta) (hb : b.Timestamp = some tb) :
    (a.IsSameAs (some b) = .ret true ↔
      (ta.GetTimeMilli = tb.GetTimeMilli ∧
        ((a.Signature = none ∧ b.Signature = none) ∨
          ∃ sa sb, a.Signature = some sa ∧ b.Signature = some sb ∧
            sa.IsSameAs (some sb) = true))) ∧
    (a.IsSameAs (some b) = .ret true ∨ a.IsSameAs (some b) = .ret false) ∧
    a.IsSameAs none = .ret false ∧
    (∀ a2 b2 : FullServerFault, a2.Timestamp = a.Timestamp → a2.Signature = a.Signature →
      b2.Timestamp = b.Timestamp → b2.Signature = b.Signature →
      a2.IsSameAs (some b2) = a.IsSameAs (some b)) ∧
    (∀ (sid : Option Hash) (vm : Byte) (db ht : Uint32) (l : List Signature),
      a.IsSameAs (some { a with ServerID := sid, VMIndex := vm, DBHeight := db, Height := ht,
                                SignatureList := l }) = .ret true) := by
  have hres := isSameAs_eq a b ta tb ha hb
  refine ⟨?_, ?_, rfl, ?_, ?_⟩
  · rw [hres]
    cases hsa : a.Signature with
    | none => cases hsb : b.Signature <;> simp
    | some sa =>
      cases hsb : b.Signature with
      | none => simp [Signature.IsSameAs]
      | some sb => simp
  · rw [hres]
    cases (decide (ta.GetTimeMilli = tb.GetTimeMilli) &&
        (match a.Signature, b.Signature with
          | none, none => true
          | none, some _ => false
          | some sa, sb => sa.IsSameAs sb))
    · exact Or.inr rfl
    · exact Or.inl rfl
  · intro a2 b2 h1 h2 h3 h4
    rw [hres, isSameAs_eq a2 b2 ta tb (h1.trans ha) (h3.trans hb), h2, h4]
  · intro sid vm db ht l
    rw [isSameAs_eq a { a with ServerID := sid, VMIndex := vm, DBHeight := db, Height := ht,
                               SignatureList := l } ta ta ha ha]
    cases hsa : a.Signature with
    | none => simp
    | some sa => simp [Signature.IsSameAs]

/-- C11, at the example message and a copy with another ServerID, VMIndex,
DBHeight, Height and SignatureList: reported the same; against the unsigned
message and against a later timestamp: not the same. -/
theorem C11_isSameAs_timestamp_and_signature_witness :
    exampleSigned.IsSameAs
        (some { exampleSigned with ServerID := some NewZeroHash, VMIndex := 9, DBHeight := 1,
                                   Height := 2, SignatureList := [exampleSignature] })
      = .ret true ∧
    exampleSigned.IsSameAs (some exampleUnsigned) = .ret false ∧
    exampleUnsigned.IsSameAs (some exampleSigned) = .ret false ∧
    exampleSigned.IsSameAs (some { exampleSigned with Timestamp := some ⟨1480000000001⟩ })
      = .ret false :=
  ⟨(C11_isSameAs_timestamp_and_signature exampleSigned exampleSigned ⟨1480000000000⟩
      ⟨1480000000000⟩ rfl rfl).2.2.2.2 (some NewZeroHash) 9 1 2 [exampleSignature],
    by decide, by decide, by decide⟩

/-! ## The message hash -/

theorem getMsgHash_fresh_ok (Sha : Bytes → Hash) (W : Wire) (m : FullServerFault) (data : Bytes)
    (h : m.MsgHash = none) (hd : m.MarshalBinary W = .ok data) :
    m.GetMsgHash Sha W = ({ m with MsgHash := some (Sha data) }, some (Sha data)) := by
  simp only [FullServerFault.GetMsgHash, h, hd]

theorem getMsgHash_fresh_error (Sha : Bytes → Hash) (W : Wire) (m : FullServerFault) (e : Error)
    (h : m.MsgHash = none) (hd : m.MarshalBinary W = .error e) :
    m.GetMsgHash Sha W = (m, none) := by
  simp only [FullServerFault.GetMsgHash, h, hd]

theorem getMsgHash_cached (Sha : Bytes → Hash) (W : Wire) (m : FullServerFault) (h0 : Hash)
    (h : m.MsgHash = some h0) : m.GetMsgHash Sha W = (m, some h0) := by
  simp only [FullServerFault.GetMsgHash, h]

/-- Two complete signatures that differ marshal to different bytes. -/
theorem signature_bytes_ne (W : Wire) (s1 s2 : Signature)
    (h1 : s1.Pub.length = W.PubKeyLen ∧ s1.Sig.length = W.SigLen)
    (h2 : s2.Pub.length = W.PubKeyLen ∧ s2.Sig.length = W.SigLen) (hne : s1 ≠ s2) :
    s1.Pub ++ s1.Sig ≠ s2.Pub ++ s2.Sig := by
  intro h
  apply hne
  have := List.append_inj h (by rw [h1.1, h2.1])
  cases s1
  cases s2
  simp only [Signature.mk.injEq]
  exact this

/-- C12. For a message whose hash has not been computed, `GetMsgHash` and
`GetHash` return `Sha` of the `MarshalBinary` bytes and store it; for a signed
message that is the digest of the signable payload followed by the signature
bytes, not of the payload alone; when marshaling fails they return nil. Two
messages with the same payload and different complete signatures are hashed
over different byte strings, each hash being `Sha` of its own string, and so
get different hashes when the digest does not collide on those two
strings. -/
theorem C12_hash_over_full_marshaled_form (Sha : Bytes → Hash) (W : Wire)
    (m : FullServerFault) (h : m.MsgHash = none) :
    (∀ data, m.MarshalBinary W = .ok data →
      (m.GetMsgHash Sha W).2 = some (Sha data) ∧ (m.GetHash Sha W).2 = some (Sha data) ∧
      (m.GetMsgHash Sha W).1.MsgHash = some (Sha data)) ∧
    (∀ s payload sigBytes, m.Signature = some s → m.MarshalForSignature W = .ok payload →
      s.MarshalBinary W = .ok sigBytes →
      (m.GetMsgHash Sha W).2 = some (Sha (payload ++ sigBytes))) ∧
    (∀ e, m.MarshalBinary W = .error e →
      (m.GetMsgHash Sha W).2 = none ∧ (m.GetHash Sha W).2 = none) ∧
    (∀ (s1 s2 : Signature) (payload : Bytes), m.MarshalForSignature W = .ok payload →
      s1.Pub.length = W.PubKeyLen ∧ s1.Sig.length = W.SigLen →
      s2.Pub.length = W.PubKeyLen ∧ s2.Sig.length = W.SigLen → s1 ≠ s2 →
      payload ++ (s1.Pub ++ s1.Sig) ≠ payload ++ (s2.Pub ++ s2.Sig) ∧
      (({ m with Signature := some s1 } : FullServerFault).GetMsgHash Sha W).2
        = some (Sha (payload ++ (s1.Pub ++ s1.Sig))) ∧
      (({ m with Signature := some s2 } : FullServerFault).GetMsgHash Sha W).2
        = some (Sha (payload ++ (s2.Pub ++ s2.Sig))) ∧
      ((Sha (payload ++ (s1.Pub ++ s1.Sig)) = Sha (payload ++ (s2.Pub ++ s2.Sig)) →
          payload ++ (s1.Pub ++ s1.Sig) = payload ++ (s2.Pub ++ s2.Sig)) →
        (({ m with Signature := some s1 } : FullServerFault).GetMsgHash Sha W).2
          ≠ (({ m with Signature := some s2 } : FullServerFault).GetMsgHash Sha W).2)) := by
  refine ⟨?_, ?_, ?_, ?_⟩
  · intro data hd
    rw [FullServerFault.GetHash, getMsgHash_fresh_ok Sha W m data h hd]
    exact ⟨rfl, rfl, rfl⟩
  · intro s payload sigBytes hs hp hsb
    rw [getMsgHash_fresh_ok Sha W m _ h (marshalBinary_signed W m s payload sigBytes hs hp hsb)]
  · intro e hd
    rw [FullServerFault.GetHash, getMsgHash_fresh_error Sha W m e h hd]
    exact ⟨rfl, rfl⟩
  · intro s1 s2 payload hp h1 h2 hne
    have key : ∀ s : Signature, s.Pub.length = W.PubKeyLen ∧ s.Sig.length = W.SigLen →
        (({ m with Signature := some s } : FullServerFault).GetMsgHash Sha W).2
          = some (Sha (payload ++ (s.Pub ++ s.Sig))) := by
      intro s hs
      have hmb : ({ m with Signature := some s } : FullServerFault).MarshalBinary W
          = .ok (payload ++ (s.Pub ++ s.Sig)) :=
        marshalBinary_signed W { m with Signature := some s } s payload _ rfl hp
          (signature_marshal_complete W s hs.1 hs.2)
      rw [getMsgHash_fresh_ok Sha W { m with Signature := some s } _ h hmb]
    have hdiff : payload ++ (s1.Pub ++ s1.Sig) ≠ payload ++ (s2.Pub ++ s2.Sig) := by
      intro heq
      exact signature_bytes_ne W s1 s2 h1 h2 hne (List.append_cancel_left heq)
    refine ⟨hdiff, key s1 h1, key s2 h2, ?_⟩
    intro hnc heq
    rw [key s1 h1, key s2 h2] at heq
    injection heq with heq
    exact hdiff (hnc heq)

set_option maxRecDepth 100000 in
/-- C12, at the example message with the stand-in digest: its hash is the
digest of all 144 marshaled bytes, which is not the digest of the 48 payload
bytes; and the example message under two different signatures gets two
different hashes. -/
theorem C12_hash_over_full_marshaled_form_witness :
    exampleSigned.MsgHash = none ∧
    (exampleSigned.GetMsgHash exampleSha exampleWire).2
      = some (exampleSha (examplePayload ++ exampleSigBytes)) ∧
    exampleSha (examplePayload ++ exampleSigBytes) ≠ exampleSha examplePayload ∧
    exampleSignature ≠ otherSignature ∧
    (({ exampleUnsigned with Signature := some exampleSignature }
        : FullServerFault).GetMsgHash exampleSha exampleWire).2
      ≠ (({ exampleUnsigned with Signature := some otherSignature }
        : FullServerFault).GetMsgHash exampleSha exampleWire).2 :=
  ⟨rfl,
    (C12_hash_over_full_marshaled_form exampleSha exampleWire exampleSigned rfl).2.1
      exampleSignature examplePayload exampleSigBytes rfl (by decide) (by decide),
    by decide, by decide,
    ((C12_hash_over_full_marshaled_form exampleSha exampleWire exampleUnsigned rfl).2.2.2
      exampleSignature otherSignature examplePayload (by decide) ⟨rfl, rfl⟩ ⟨rfl, rfl⟩
      (by decide)).2.2.2 (by decide)⟩

theorem unmarshal_msgHash (W : Wire) (m : FullServerFault) (data : Bytes) :
    (m.UnmarshalBinaryData W data).m.MsgHash = m.MsgHash := by
  simp only [FullServerFault.UnmarshalBinaryData]
  repeat' split
  all_goals rfl

theorem sign_msgHash (W : Wire) (m : FullServerFault) (key : Signer) :
    (m.Sign W key).1.MsgHash = m.MsgHash := by
  unfold FullServerFault.Sign
  split <;> rfl

theorem getMsgHash_msgHash_of_cached (Sha : Bytes → Hash) (W : Wire) (m : FullServerFault)
    (h0 : Hash) (h : m.MsgHash = some h0) : (m.GetMsgHash Sha W).1.MsgHash = some h0 := by
  rw [getMsgHash_cached Sha W m h0 h]
  exact h

/-- No change of the message touches a hash that is already cached. -/
theorem change_keeps_cached (Sha : Bytes → Hash) (W : Wire) (m : FullServerFault) (h0 : Hash)
    (h : m.MsgHash = some h0) (c : Change) : (c.apply Sha W m).MsgHash = some h0 := by
  cases c with
  | callSign key => exact (sign_msgHash W m key).trans h
  | callUnmarshalBinaryData data => exact (unmarshal_msgHash W m data).trans h
  | callGetMsgHash => exact getMsgHash_msgHash_of_cached Sha W m h0 h
  | setTimestamp v => exact h
  | setServerID v => exact h
  | setVMIndex v => exact h
  | setDBHeight v => exact h
  | setHeight v => exact h
  | setSignatureList v => exact h
  | setSignature v => exact h

theorem changes_keep_cached (Sha : Bytes → Hash) (W : Wire) (cs : List Change)
    (m : FullServerFault) (h0 : Hash) (h : m.MsgHash = some h0) :
    (cs.foldl (Change.apply Sha W) m).MsgHash = some h0 := by
  induction cs generalizing m with
  | nil => exact h
  | cons c cs ih => exact ih _ (change_keeps_cached Sha W m h0 h c)

/-- A returned hash is the cached hash of the receiver after the call. -/
theorem getMsgHash_returns_cached (Sha : Bytes → Hash) (W : Wire) (m : FullServerFault)
    (h0 : Hash) (h : (m.GetMsgHash Sha W).2 = some h0) :
    (m.GetMsgHash Sha W).1.MsgHash = some h0 := by
  unfold FullServerFault.GetMsgHash at h ⊢
  split
  · rename_i hnone
    rw [hnone] at h
    split
    · rename_i herr
      rw [herr] at h
      cases h
    · rename_i data hok
      rw [hok] at h
      exact h
  · rename_i h1 hsome
    rw [hsome] at h
    simp only at h
    rw [← h]
    exact hsome

/-- C13. Once `GetMsgHash` has returned a hash, every later `GetMsgHash` and
`GetHash` call returns the same hash, whatever calls of `Sign`,
`UnmarshalBinaryData` and `GetMsgHash` and whatever assignments to the fields
of the message happened in between; and `GetMsgHash` changes no field other
than the cached hash. -/
theorem C13_hash_memoized (Sha : Bytes → Hash) (W : Wire) (m : FullServerFault) (h0 : Hash)
    (h : (m.GetMsgHash Sha W).2 = some h0) (cs : List Change) :
    ((cs.foldl (Change.apply Sha W) (m.GetMsgHash Sha W).1).GetMsgHash Sha W).2 = some h0 ∧
    ((cs.foldl (Change.apply Sha W) (m.GetMsgHash Sha W).1).GetHash Sha W).2 = some h0 ∧
    ((cs.foldl (Change.apply Sha W) (m.GetMsgHash Sha W).1).GetMsgHash Sha W).1
      = cs.foldl (Change.apply Sha W) (m.GetMsgHash Sha W).1 ∧
    (m.GetMsgHash Sha W).1 = { m with MsgHash := (m.GetMsgHash Sha W).1.MsgHash } := by
  have hc := changes_keep_cached Sha W cs _ h0 (getMsgHash_returns_cached Sha W m h0 h)
  have hg := getMsgHash_cached Sha W _ h0 hc
  refine ⟨by rw [hg], by rw [FullServerFault.GetHash, hg], by rw [hg], ?_⟩
  unfold FullServerFault.GetMsgHash
  split
  · split <;> rfl
  · rfl

set_option maxRecDepth 100000 in
/-- C13, at the example message: hashed while signed, then its Height is set
to 8, its signature is removed and another buffer is decoded into it; the hash
returned afterwards is still the digest of the first 144 bytes, not the digest
of what the message now marshals to. -/
theorem C13_hash_memoized_witness :
    (exampleSigned.GetMsgHash exampleSha exampleWire).2
      = some (exampleSha (examplePayload ++ exampleSigBytes)) ∧
    (([Change.setHeight 8, Change.setSignature none,
        Change.callUnmarshalBinaryData (examplePayload.set 47 9)].foldl
      (Change.apply exampleSha exampleWire)
      (exampleSigned.GetMsgHash exampleSha exampleWire).1).GetMsgHash exampleSha exampleWire).2
      = some (exampleSha (examplePayload ++ exampleSigBytes)) ∧
    ([Change.setHeight 8, Change.setSignature none,
        Change.callUnmarshalBinaryData (examplePayload.set 47 9)].foldl
      (Change.apply exampleSha exampleWire)
      (exampleSigned.GetMsgHash exampleSha exampleWire).1).MarshalBinary exampleWire
      = .ok (examplePayload.set 47 9) ∧
    exampleSha (examplePayload.set 47 9) ≠ exampleSha (examplePayload ++ exampleSigBytes) :=
  ⟨by decide,
    (C13_hash_memoized exampleSha exampleWire exampleSigned
      (exampleSha (examplePayload ++ exampleSigBytes)) (by decide)
      [Change.setHeight 8, Change.setSignature none,
        Change.callUnmarshalBinaryData (examplePayload.set 47 9)]).1,
    by decide, by decide⟩

/-! ## Signing -/

/-- C14. A successful `Sign(key)` sets `Signature` to what the key signs over
`MarshalForSignature(m)` and changes no other field, so the signable payload
is the same before and after; a failing `Sign` returns the error of the failed
step (marshaling the payload, or signing) and leaves the message as it
was. -/
theorem C14_sign_only_attaches_signature (W : Wire) (m : FullServerFault) (key : Signer) :
    ((m.Sign W key).2 = none →
      ∃ payload sig, m.MarshalForSignature W = .ok payload ∧ key.Sign payload = .ok sig ∧
        (m.Sign W key).1 = { m with Signature := some sig } ∧
        (m.Sign W key).1.Timestamp = m.Timestamp ∧
        (m.Sign W key).1.ServerID = m.ServerID ∧
        (m.Sign W key).1.VMIndex = m.VMIndex ∧
        (m.Sign W key).1.DBHeight = m.DBHeight ∧
        (m.Sign W key).1.Height = m.Height ∧
        (m.Sign W key).1.SignatureList = m.SignatureList ∧
        (m.Sign W key).1.MarshalForSignature W = .ok payload) ∧
    (∀ e, (m.Sign W key).2 = some e →
      (m.Sign W key).1 = m ∧
      (m.MarshalForSignature W = .error e ∨
        ∃ payload, m.MarshalForSignature W = .ok payload ∧ key.Sign payload = .error e)) ∧
    (∀ payload sig, m.MarshalForSignature W = .ok payload → key.Sign payload = .ok sig →
      m.Sign W key = ({ m with Signature := some sig }, none)) := by
  cases hp : m.MarshalForSignature W with
  | error e0 =>
    have hs : m.Sign W key = (m, some e0) := by
      simp only [FullServerFault.Sign, SignSignable, hp]
    rw [hs]
    refine ⟨(fun h => nomatch h), ?_, ?_⟩
    · intro e he
      injection he with he
      exact ⟨rfl, Or.inl (by rw [he])⟩
    · intro payload sig h
      cases h
  | ok payload =>
    cases hk : key.Sign payload with
    | error e0 =>
      have hs : m.Sign W key = (m, some e0) := by
        simp only [FullServerFault.Sign, SignSignable, hp, hk]
      rw [hs]
      refine ⟨(fun h => nomatch h), ?_, ?_⟩
      · intro e he
        injection he with he
        exact ⟨rfl, Or.inr ⟨payload, rfl, by rw [hk, he]⟩⟩
      · intro p sig h1 h2
        injection h1 with h1
        rw [← h1, hk] at h2
        cases h2
    | ok sig =>
      have hs : m.Sign W key = ({ m with Signature := some sig }, none) := by
        simp only [FullServerFault.Sign, SignSignable, hp, hk]
      rw [hs]
      refine ⟨fun _ => ⟨payload, sig, rfl, hk, rfl, rfl, rfl, rfl, rfl, rfl, rfl, hp⟩, ?_, ?_⟩
      · intro e he
        cases he
      · intro p sig2 h1 h2
        injection h1 with h1
        rw [← h1, hk] at h2
        injection h2 with h2
        rw [h2]

/-- C14, at the example message: signing the unsigned message with key K gives
the signed message; with bad key material the error is returned and the
message stays unsigned; a message without a timestamp cannot be signed. -/
theorem C14_sign_only_attaches_signature_witness :
    exampleUnsigned.Sign exampleWire exampleSigner = (exampleSigned, none) ∧
    exampleUnsigned.Sign exampleWire brokenSigner = (exampleUnsigned, some (.collaborator 2)) ∧
    FullServerFault.new.Sign exampleWire exampleSigner
      = (FullServerFault.new, some (.marshalRecovered .nilDereference)) :=
  ⟨(C14_sign_only_attaches_signature exampleWire exampleUnsigned exampleSigner).2.2
      examplePayload exampleSignature (by decide) rfl,
    by decide, by decide⟩

/-! ## Execution -/

/-- C15. `LeaderExecute` and `FollowerExecute` are the same operation: on
every message and node state each gives exactly what one call of
`state.FollowerExecuteFullFault(m)` gives, for the node state and for the
message; so when that call leaves the message alone, the message is
unchanged. -/
theorem C15_leader_is_follower {σ : Type} (m : FullServerFault) (state : IStateExec σ)
    (st : σ) :
    m.LeaderExecute state st = m.FollowerExecute state st ∧
    m.FollowerExecute state st = state.FollowerExecuteFullFault st m ∧
    ((state.FollowerExecuteFullFault st m).2 = m →
      (m.LeaderExecute state st).2 = m ∧ (m.FollowerExecute state st).2 = m) :=
  ⟨rfl, rfl, fun h => ⟨h, h⟩⟩

/-- C15, at the example message and a node that records what it is handed:
either call hands the message over once and leaves it as it was. -/
theorem C15_leader_is_follower_witness :
    exampleSigned.LeaderExecute recordingState [] = ([exampleSigned], exampleSigned) ∧
    exampleSigned.FollowerExecute recordingState [] = ([exampleSigned], exampleSigned) :=
  ⟨(C15_leader_is_follower exampleSigned recordingState []).1.trans rfl,
    (C15_leader_is_follower exampleSigned recordingState []).2.1.trans rfl⟩

/-! ## The factoid block head -/

/-- A save succeeds exactly on a store in working order with a block that
serialises, and then the store holds the four records of the batch. -/
theorem saveFactoidBlockHead_ok (K : OverlayConsts) (db db2 : Overlay) (b : DatabaseBatchable)
    (h : db.SaveFactoidBlockHead K b = (db2, none)) :
    db.fault = none ∧ (∃ bytes, b.MarshalBinary = .ok bytes) ∧
    db2 = { db with DB := (factoidBatch K b).foldl Overlay.put db.DB } := by
  simp only [Overlay.SaveFactoidBlockHead, Overlay.ProcessFBlockBatch,
    Overlay.ProcessBlockBatch, Overlay.PutInBatch] at h
  cases hm : b.MarshalBinary with
  | error e =>
    rw [hm] at h
    simp at h
  | ok bytes =>
    rw [hm] at h
    cases hf : db.fault with
    | some e =>
      rw [hf] at h
      simp at h
    | none =>
      rw [hf] at h
      simp only [Prod.mk.injEq, and_true] at h
      exact ⟨rfl, ⟨bytes, rfl⟩, h.symm⟩

theorem saveFactoidBlockHead_succeeds (K : OverlayConsts) (db : Overlay) (b : DatabaseBatchable)
    (bytes : Bytes) (hf : db.fault = none) (hm : b.MarshalBinary = .ok bytes) :
    ∃ db2, db.SaveFactoidBlockHead K b = (db2, none) := by
  simp only [Overlay.SaveFactoidBlockHead, Overlay.ProcessFBlockBatch,
    Overlay.ProcessBlockBatch, Overlay.PutInBatch, hm, hf]
  exact ⟨_, rfl⟩

/-- After a successful save of a factoid block, the head is that block. -/
theorem fetch_after_save (K : OverlayConsts) (hK : K.BodyBucketApart) (db db2 : Overlay)
    (b : DatabaseBatchable) (hb : b.GetChainID = K.FACTOID_CHAINID)
    (h : db.SaveFactoidBlockHead K b = (db2, none)) :
    db2.FetchFactoidBlockHead K = (some b, none) := by
  obtain ⟨hf, -, hdb⟩ := saveFactoidBlockHead_ok K db db2 b h
  obtain ⟨h1, h2, h3⟩ := hK
  rw [hdb]
  simp [Overlay.FetchFactoidBlockHead, Overlay.FetchChainHeadByChainID,
    Overlay.FetchHeadIndexByChainID, Overlay.FetchBlock, Overlay.put, factoidBatch, hf, hb,
    h1, h2, h3]

/-- Saving the same block again leaves the overlay as it is. -/
theorem save_twice (K : OverlayConsts) (db db1 db2 : Overlay) (b : DatabaseBatchable)
    (h1 : db.SaveFactoidBlockHead K b = (db1, none))
    (h2 : db1.SaveFactoidBlockHead K b = (db2, none)) : db2 = db1 := by
  obtain ⟨-, -, hdb1⟩ := saveFactoidBlockHead_ok K db db1 b h1
  obtain ⟨-, -, hdb2⟩ := saveFactoidBlockHead_ok K db1 db2 b h2
  rw [hdb2]
  have hDB : (factoidBatch K b).foldl Overlay.put db1.DB = db1.DB := by
    funext bucket key
    rw [hdb1]
    simp only [factoidBatch, List.foldl, Overlay.put]
    split_ifs <;> rfl
  rw [hDB]

/-- C16. With the body bucket of factoid blocks apart from the index and head
buckets, and for factoid blocks (blocks of the factoid chain): on any overlay
state, after a successful `SaveFactoidBlockHead(b)`, `FetchFactoidBlockHead`
returns `b`; after two successful saves of `b` the overlay is as after the
first and the head is `b`; after a successful save of `b1` and then of `b2`
the head is `b2`. A save succeeds whenever the store is in working order and
the block serialises. -/
theorem C16_head_storage (K : OverlayConsts) (hK : K.BodyBucketApart) (db : Overlay) :
    (∀ (b : DatabaseBatchable) (db1 : Overlay), b.GetChainID = K.FACTOID_CHAINID →
      db.SaveFactoidBlockHead K b = (db1, none) →
      db1.FetchFactoidBlockHead K = (some b, none)) ∧
    (∀ (b : DatabaseBatchable) (db1 db2 : Overlay), b.GetChainID = K.FACTOID_CHAINID →
      db.SaveFactoidBlockHead K b = (db1, none) →
      db1.SaveFactoidBlockHead K b = (db2, none) →
      db2 = db1 ∧ db2.FetchFactoidBlockHead K = (some b, none)) ∧
    (∀ (b1 b2 : DatabaseBatchable) (db1 db2 : Overlay), b2.GetChainID = K.FACTOID_CHAINID →
      db.SaveFactoidBlockHead K b1 = (db1, none) →
      db1.SaveFactoidBlockHead K b2 = (db2, none) →
      db2.FetchFactoidBlockHead K = (some b2, none)) ∧
    (∀ (b : DatabaseBatchable) (bytes : Bytes), db.fault = none →
      b.MarshalBinary = .ok bytes → ∃ db1, db.SaveFactoidBlockHead K b = (db1, none)) := by
  refine ⟨?_, ?_, ?_, ?_⟩
  · intro b db1 hb h1
    exact fetch_after_save K hK db db1 b hb h1
  · intro b db1 db2 hb h1 h2
    exact ⟨save_twice K db db1 db2 b h1 h2, fetch_after_save K hK db1 db2 b hb h2⟩
  · intro b1 b2 db1 db2 hb _ h2
    exact fetch_after_save K hK db1 db2 b2 hb h2
  · intro b bytes hf hm
    exact saveFactoidBlockHead_succeeds K db b bytes hf hm

theorem exampleConsts_apart : exampleConsts.BodyBucketApart :=
  ⟨by decide, by decide, by decide⟩

/-- C16, on the empty overlay with two factoid blocks: the head after saving
the first is the first, also after saving it twice; after saving the second
it is the second. -/
theorem C16_head_storage_witness :
    exampleConsts.BodyBucketApart ∧
    (emptyOverlay.SaveFactoidBlockHead exampleConsts exampleBlock1).2 = none ∧
    (emptyOverlay.SaveFactoidBlockHead exampleConsts exampleBlock1).1.FetchFactoidBlockHead
      exampleConsts = (some exampleBlock1, none) ∧
    (((emptyOverlay.SaveFactoidBlockHead exampleConsts exampleBlock1).1.SaveFactoidBlockHead
      exampleConsts exampleBlock1).1.FetchFactoidBlockHead exampleConsts
        = (some exampleBlock1, none)) ∧
    (((emptyOverlay.SaveFactoidBlockHead exampleConsts exampleBlock1).1.SaveFactoidBlockHead
      exampleConsts exampleBlock2).1.FetchFactoidBlockHead exampleConsts
        = (some exampleBlock2, none)) :=
  ⟨exampleConsts_apart, rfl,
    (C16_head_storage exampleConsts exampleConsts_apart emptyOverlay).1 exampleBlock1 _ rfl rfl,
    by decide, by decide⟩

/-- C17. `FetchFactoidBlockHead` passes on what the chain-head lookup of the
factoid chain gives: no block and no error when the lookup finds nothing, no
block and the lookup's error when the lookup fails, the block and no error
when the lookup finds one. On a store in working order that holds no head
pointer for the factoid chain it returns no block and no error; on a store
that is out of order it returns the store's error. -/
theorem C17_fetch_head_not_found_or_error (K : OverlayConsts) (db : Overlay) :
    (db.FetchChainHeadByChainID K [K.FACTOIDBLOCK] K.FACTOID_CHAINID = (none, none) →
      db.FetchFactoidBlockHead K = (none, none)) ∧
    (∀ blk e, db.FetchChainHeadByChainID K [K.FACTOIDBLOCK] K.FACTOID_CHAINID = (blk, some e) →
      db.FetchFactoidBlockHead K = (none, some e)) ∧
    (∀ b, db.FetchChainHeadByChainID K [K.FACTOIDBLOCK] K.FACTOID_CHAINID = (some b, none) →
      db.FetchFactoidBlockHead K = (some b, none)) ∧
    (db.fault = none → db.DB [K.CHAIN_HEAD] K.FACTOID_CHAINID.bytes = none →
      db.FetchFactoidBlockHead K = (none, none)) ∧
    (∀ e, db.fault = some e → db.FetchFactoidBlockHead K = (none, some e)) := by
  refine ⟨?_, ?_, ?_, ?_, ?_⟩
  · intro h
    simp only [Overlay.FetchFactoidBlockHead, h]
  · intro blk e h
    simp only [Overlay.FetchFactoidBlockHead, h]
  · intro b h
    simp only [Overlay.FetchFactoidBlockHead, h]
  · intro hf hnone
    simp only [Overlay.FetchFactoidBlockHead, Overlay.FetchChainHeadByChainID,
      Overlay.FetchHeadIndexByChainID, hf, hnone]
  · intro e hf
    simp only [Overlay.FetchFactoidBlockHead, Overlay.FetchChainHeadByChainID,
      Overlay.FetchHeadIndexByChainID, hf]

/-- C17, on the example overlays: nothing saved gives no block and no error, a
store out of order gives its error, and after a save the block is returned. -/
theorem C17_fetch_head_not_found_or_error_witness :
    emptyOverlay.FetchFactoidBlockHead exampleConsts = (none, none) ∧
    brokenOverlay.FetchFactoidBlockHead exampleConsts = (none, some (.collaborator 3)) ∧
    (emptyOverlay.SaveFactoidBlockHead exampleConsts exampleBlock1).1.FetchFactoidBlockHead
      exampleConsts = (some exampleBlock1, none) :=
  ⟨(C17_fetch_head_not_found_or_error exampleConsts emptyOverlay).2.2.2.1 rfl rfl,
    (C17_fetch_head_not_found_or_error exampleConsts brokenOverlay).2.2.2.2 _ rfl,
    by decide⟩

/-! ## The receiver of a decode -/

/-- C18. A rejected type tag leaves the receiver untouched: on a non-empty
buffer whose first byte is not the FullServerFault type tag the call fails
with the type error and the receiver is, in every field, what it was. -/
theorem C18_wrong_tag_leaves_receiver (W : Wire) (m : FullServerFault) (b : Byte)
    (rest : Bytes) (h : b ≠ W.FED_SERVER_FAULT_MSG) :
    (m.UnmarshalBinaryData W (b :: rest)).m = m ∧
    (m.UnmarshalBinaryData W (b :: rest)).err = some .invalidMessageType := by
  simp [FullServerFault.UnmarshalBinaryData, FullServerFault.Type, h]

/-- C18, at the example message as receiver and its own bytes with the tag
replaced by 4. -/
theorem C18_wrong_tag_leaves_receiver_witness :
    (4 : Byte) ≠ exampleWire.FED_SERVER_FAULT_MSG ∧
    (exampleSigned.UnmarshalBinaryData exampleWire
      (4 :: (examplePayload ++ exampleSigBytes).tail)).m = exampleSigned ∧
    (exampleSigned.UnmarshalBinaryData exampleWire
      (4 :: (examplePayload ++ exampleSigBytes).tail)).err = some .invalidMessageType :=
  ⟨by decide, C18_wrong_tag_leaves_receiver exampleWire exampleSigned 4
    (examplePayload ++ exampleSigBytes).tail (by decide)⟩

/-- C19, amended. A buffer that decodes without error into one receiver
decodes without error into every receiver, and the two results agree on
Timestamp, ServerID, VMIndex, DBHeight, Height and on the returned remainder,
and on Signature when bytes follow the fixed fields. When the buffer ends with
the fixed fields, `Signature` is not assigned: each receiver keeps the
signature it had, so decoding an unsigned buffer gives an unsigned message
only in a receiver that was unsigned. -/
theorem C19_unsigned_decode_keeps_receiver_signature (W : Wire) (data : Bytes)
    (r1 r2 : FullServerFault) (h1 : (r1.UnmarshalBinaryData W data).err = none) :
    (r2.UnmarshalBinaryData W data).err = none ∧
    (r1.UnmarshalBinaryData W data).m.Timestamp = (r2.UnmarshalBinaryData W data).m.Timestamp ∧
    (r1.UnmarshalBinaryData W data).m.ServerID = (r2.UnmarshalBinaryData W data).m.ServerID ∧
    (r1.UnmarshalBinaryData W data).m.VMIndex = (r2.UnmarshalBinaryData W data).m.VMIndex ∧
    (r1.UnmarshalBinaryData W data).m.DBHeight = (r2.UnmarshalBinaryData W data).m.DBHeight ∧
    (r1.UnmarshalBinaryData W data).m.Height = (r2.UnmarshalBinaryData W data).m.Height ∧
    (r1.UnmarshalBinaryData W data).newData = (r2.UnmarshalBinaryData W data).newData ∧
    (fixedLen W < data.length →
      (r1.UnmarshalBinaryData W data).m.Signature
        = (r2.UnmarshalBinaryData W data).m.Signature) ∧
    (data.length = fixedLen W →
      (r1.UnmarshalBinaryData W data).m.Signature = r1.Signature ∧
      (r2.UnmarshalBinaryData W data).m.Signature = r2.Signature) := by
  obtain ⟨tsb, sid, vm, db, hb, tail, htsb, hdb, hhb, hdata⟩ := unmarshal_shape W r1 data h1
  have hflen := fixedFields_length W tsb sid vm db hb htsb hdb hhb
  have hlen : data.length = fixedLen W + tail.length := by
    rw [hdata, List.length_append, hflen]
  have e1 := unmarshal_encoded W r1 tsb sid vm db hb tail htsb hdb hhb
  have e2 := unmarshal_encoded W r2 tsb sid vm db hb tail htsb hdb hhb
  rw [← hdata] at e1 e2
  by_cases htail : tail.length > 0
  · rw [if_pos htail] at e1 e2
    cases hsig : Signature.UnmarshalBinaryData W tail with
    | error e =>
      rw [hsig] at e1
      rw [e1] at h1
      cases h1
    | ok p =>
      obtain ⟨s, nd⟩ := p
      rw [hsig] at e1 e2
      rw [e1, e2]
      exact ⟨rfl, rfl, rfl, rfl, rfl, rfl, rfl, fun _ => rfl, fun h => by omega⟩
  · rw [if_neg htail] at e1 e2
    rw [e1, e2]
    exact ⟨rfl, rfl, rfl, rfl, rfl, rfl, rfl, fun h => by omega, fun _ => ⟨rfl, rfl⟩⟩

set_option maxRecDepth 100000 in
/-- C19, at the 144 bytes of the signed example message decoded into a fresh
message and into a message that carried another signature: both results carry
the signature of the buffer. -/
theorem C19_unsigned_decode_keeps_receiver_signature_witness :
    (FullServerFault.new.UnmarshalBinaryData exampleWire
      (examplePayload ++ exampleSigBytes)).err = none ∧
    fixedLen exampleWire < (examplePayload ++ exampleSigBytes).length ∧
    (FullServerFault.new.UnmarshalBinaryData exampleWire
      (examplePayload ++ exampleSigBytes)).m.Signature = some exampleSignature ∧
    (FullServerFault.new.UnmarshalBinaryData exampleWire
      (examplePayload ++ exampleSigBytes)).m.Signature
      = (({ exampleUnsigned with Signature := some Signature.new }
          : FullServerFault).UnmarshalBinaryData exampleWire
            (examplePayload ++ exampleSigBytes)).m.Signature :=
  ⟨by decide, by decide, by decide,
    (C19_unsigned_decode_keeps_receiver_signature exampleWire
      (examplePayload ++ exampleSigBytes) FullServerFault.new
      { exampleUnsigned with Signature := some Signature.new } (by decide)).2.2.2.2.2.2.2.1
      (by decide)⟩

set_option maxRecDepth 100000 in
/-- C19 as stated fails: the 48 bytes of the unsigned example message decode
without error into the signed example message and into a fresh message, and
the two results differ in Signature; the first, decoded from an unsigned
buffer, is not an unsigned message. -/
theorem C19_receiver_signature_survives_counterexample :
    (exampleSigned.UnmarshalBinaryData exampleWire examplePayload).err = none ∧
    (FullServerFault.new.UnmarshalBinaryData exampleWire examplePayload).err = none ∧
    examplePayload.length = fixedLen exampleWire ∧
    (exampleSigned.UnmarshalBinaryData exampleWire examplePayload).m.Signature
      = some exampleSignature ∧
    (FullServerFault.new.UnmarshalBinaryData exampleWire examplePayload).m.Signature = none ∧
    (exampleSigned.UnmarshalBinaryData exampleWire examplePayload).m.Signature
      ≠ (FullServerFault.new.UnmarshalBinaryData exampleWire examplePayload).m.Signature := by
  decide

/-! ## The event mappers -/

theorem set_append_none {β : Type} (pre : List (Option β)) (v : Option β)
    (rest : List (Option β)) :
    (pre ++ none :: rest).set pre.length v = pre ++ v :: rest := by
  induction pre with
  | nil => rfl
  | cons a pre ih => simp [ih]

/-- The range loop fills the slots in order with the images of the inputs. -/
theorem rangeAssign_eq {α β : Type} (f : α → β) (xs : List α) (pre : List (Option β)) :
    rangeAssign f xs pre.length (pre ++ List.replicate xs.length none)
      = pre ++ xs.map (fun x => some (f x)) := by
  induction xs generalizing pre with
  | nil => simp [rangeAssign]
  | cons x xs ih =>
    have h := ih (pre ++ [some (f x)])
    simp only [List.length_append, List.length_singleton, List.append_assoc,
      List.singleton_append] at h
    simp only [rangeAssign, List.length_cons, List.replicate_succ, set_append_none,
      List.map_cons]
    exact h

theorem rangeAssign_zero {α β : Type} (f : α → β) (xs : List α) :
    rangeAssign f xs 0 (List.replicate xs.length none) = xs.map (fun x => some (f x)) := by
  have := rangeAssign_eq f xs []
  simpa using this

/-- C20. The list mappers preserve length and order: `mapExternalIds`,
`mapEntryBlockHashes` and `mapEntryBlockEntries` return a list as long as
their input whose i-th element is the image of the i-th input. With the flag
false `mapEntryBlockEntry` carries the entry hash only (no external ids, no
content, version 0); with the flag true it carries the entry hash, the
entry's external ids in order and its content. -/
theorem C20_mappers_preserve_order (entry : IEBEntry) :
    (∀ l : List Bytes, (mapExternalIds l).length = l.length ∧
      ∀ i : Nat, (mapExternalIds l)[i]? = (l[i]?).map (fun x => some { BinaryValue := x })) ∧
    (∀ l : List Hash, (mapEntryBlockHashes l).length = l.length ∧
      ∀ i : Nat, (mapEntryBlockHashes l)[i]?
        = (l[i]?).map (fun x => some { HashValue := x.bytes })) ∧
    (∀ (l : List IEBEntry) (flag : Bool), (mapEntryBlockEntries l flag).length = l.length ∧
      ∀ i : Nat, (mapEntryBlockEntries l flag)[i]?
        = (l[i]?).map (fun x => some (mapEntryBlockEntry x flag))) ∧
    mapEntryBlockEntry entry false =
      { Hash := some { HashValue := entry.GetHash.bytes }, ExternalIDs := [], Content := none,
        Version := 0 } ∧
    (mapEntryBlockEntry entry true).Hash = some { HashValue := entry.GetHash.bytes } ∧
    (mapEntryBlockEntry entry true).ExternalIDs
      = entry.ExternalIDs.map (fun x => some { BinaryValue := x }) ∧
    (mapEntryBlockEntry entry true).Content = some { BinaryValue := entry.GetContent } := by
  refine ⟨?_, ?_, ?_, rfl, ?_, ?_, ?_⟩
  · intro l
    simp only [mapExternalIds, rangeAssign_zero]
    exact ⟨List.length_map _ _, fun i => List.getElem?_map _ _ _⟩
  · intro l
    simp only [mapEntryBlockHashes, rangeAssign_zero]
    exact ⟨List.length_map _ _, fun i => List.getElem?_map _ _ _⟩
  · intro l flag
    simp only [mapEntryBlockEntries, rangeAssign_zero]
    exact ⟨List.length_map _ _, fun i => List.getElem?_map _ _ _⟩
  · simp only [mapEntryBlockEntry, if_true]
    cases entry.asEntry <;> rfl
  · simp only [mapEntryBlockEntry, if_true, mapExternalIds, rangeAssign_zero]
    cases entry.asEntry <;> rfl
  · simp only [mapEntryBlockEntry, if_true]
    cases entry.asEntry <;> rfl

/-- C20, at the example entry: without content only the hash is carried; with
content the two external ids come in order and the content follows. -/
theorem C20_mappers_preserve_order_witness :
    mapEntryBlockEntry exampleEntry false =
      { Hash := some { HashValue := exampleServerID.bytes }, ExternalIDs := [], Content := none,
        Version := 0 } ∧
    mapEntryBlockEntry exampleEntry true =
      { Hash := some { HashValue := exampleServerID.bytes },
        ExternalIDs := [some { BinaryValue := [1, 2] }, some { BinaryValue := [3] }],
        Content := some { BinaryValue := [7, 7, 7] }, Version := 1 } ∧
    mapExternalIds [[1, 2], [3], []]
      = [some { BinaryValue := [1, 2] }, some { BinaryValue := [3] }, some { BinaryValue := [] }] :=
  ⟨(C20_mappers_preserve_order exampleEntry).2.2.2.1, by decide, by decide⟩

end Factomd
